import Mathlib

/-!
Verification of the exact integer plane-geometry kernel of the mesh-kernel
repository.  The C++ code works with fixed-width signed integers whose
widths are chosen by compile-time formulas so that no operation can
overflow within the declared input bounds; accordingly the shallow
embedding uses unbounded integers, and the overflow-freedom statements
are proved as explicit bounds against the declared bit widths
(geometry<26, 55>: bits_position = 26, bits_normal = 55,
bits_plane_d = 26 + 55 + 2 = 83, bits_determinant_abc = 3*55 + 3 = 168,
bits_determinant_xxd = 2*55 + 83 + 3 = 196).
-/

set_option maxHeartbeats 1600000

namespace MeshKernel

/-- Integer sign as used by tg::sign, valued in -1, 0, +1. -/
def isign (n : ℤ) : ℤ := Int.sign n

/-- A plane a*x + b*y + c*z + d = 0 with integer coefficients
(ipg::plane, integer-plane-geometry/plane.hh). -/
structure Plane where
  a : ℤ
  b : ℤ
  c : ℤ
  d : ℤ
  deriving DecidableEq, Repr

/-- Validity of a plane (plane.hh is_valid): the normal is not the zero
vector. -/
def planeIsValid (p : Plane) : Bool := p.a ≠ 0 ∨ p.b ≠ 0 ∨ p.c ≠ 0

/-- A homogeneous point (X, Y, Z, W) denoting (X/W, Y/W, Z/W)
(ipg::point4, integer-plane-geometry/point.hh). -/
structure Point4 where
  x : ℤ
  y : ℤ
  z : ℤ
  w : ℤ
  deriving DecidableEq, Repr

/-- An integer position in Z^3 (geometry_t::pos_t). -/
structure Pos3 where
  x : ℤ
  y : ℤ
  z : ℤ
  deriving DecidableEq, Repr

/-- The plane equation evaluated at a homogeneous point:
a*X + b*Y + c*Z + d*W, with the same grouping as the C++ classify
(classify.hh): (a*X + b*Y) + (c*Z + d*W). -/
def planeEval (p : Plane) (pt : Point4) : ℤ :=
  (p.a * pt.x + p.b * pt.y) + (p.c * pt.z + p.d * pt.w)

/-- ipg::classify(point4, plane) (classify.hh): the sign of the plane
equation at the point, multiplied by the sign of W. -/
def classify4 (pt : Point4) (p : Plane) : ℤ :=
  isign (planeEval p pt) * isign pt.w

/-- ipg::signed_distance(plane, pos) (plane.hh): dot of normal and point
plus d. -/
def signedDistance (p : Plane) (q : Pos3) : ℤ :=
  p.a * q.x + p.b * q.y + p.c * q.z + p.d

/-- ipg::classify(pos, plane) (classify.hh): sign of the signed
distance. -/
def classifyPos (q : Pos3) (p : Plane) : ℤ := isign (signedDistance p q)

/-- The point4 constructor from an integer position (point.hh
point4(tg::ipos3)): promote with W = 1. -/
def point4OfPos (q : Pos3) : Point4 := ⟨q.x, q.y, q.z, 1⟩

/-- An integer axis-aligned bounding box (tg::iaabb3). -/
structure Aabb where
  lo : Pos3
  hi : Pos3
  deriving DecidableEq, Repr

/-- ipg::classify(iaabb3, plane) (classify.hh): all coordinates are
doubled so the box can be centered exactly; compares 2*d + (min+max).n
against |(max-min).n| taken with component-wise absolute values. -/
def classifyAabb (bb : Aabb) (pl : Plane) : ℤ :=
  let cx := bb.lo.x + bb.hi.x
  let cy := bb.lo.y + bb.hi.y
  let cz := bb.lo.z + bb.hi.z
  let sx := bb.hi.x - bb.lo.x
  let sy := bb.hi.y - bb.lo.y
  let sz := bb.hi.z - bb.lo.z
  let dd := pl.d * 2 + cx * pl.a + cy * pl.b + cz * pl.c
  let hn := sx * |pl.a| + sy * |pl.b| + sz * |pl.c|
  if hn + dd < 0 then -1 else if hn - dd < 0 then 1 else 0

/-- A corner of an integer box: per component, the max coordinate when the
flag is true and the min coordinate otherwise. -/
def cornerOf (bb : Aabb) (b1 b2 b3 : Bool) : Pos3 :=
  ⟨if b1 then bb.hi.x else bb.lo.x,
   if b2 then bb.hi.y else bb.lo.y,
   if b3 then bb.hi.z else bb.lo.z⟩

/-- The 3x3 determinant in its textbook cofactor expansion. -/
def det3 (a1 a2 a3 b1 b2 b3 c1 c2 c3 : ℤ) : ℤ :=
  a1 * (b2 * c3 - b3 * c2) - a2 * (b1 * c3 - b3 * c1) + a3 * (b1 * c2 - b2 * c1)

/-- ipg::intersect(plane, plane, plane) (intersect.hh): the homogeneous
intersection point of three planes via 2x2 and 3x3 determinants.  The
W component is the determinant of the (a, b, c) sub-matrix. -/
def intersect3 (p q r : Plane) : Point4 :=
  let det2ab := p.a * q.b - p.b * q.a
  let det2ac := p.a * q.c - p.c * q.a
  let det2ad := p.a * q.d - p.d * q.a
  let det2bc := p.b * q.c - p.c * q.b
  let det2bd := p.b * q.d - p.d * q.b
  let det2cd := p.c * q.d - p.d * q.c
  let detabc := det2ab * r.c - det2ac * r.b + det2bc * r.a
  let detabd := det2ad * r.b - det2ab * r.d - det2bd * r.a
  let detacd := det2ac * r.d - det2ad * r.c + det2cd * r.a
  let detbcd := det2bd * r.c - det2cd * r.b - det2bc * r.d
  ⟨detbcd, detacd, detabd, detabc⟩

/-- The boolean result of the three-plane intersection: W is nonzero
(intersect.hh returns !is_zero(det_abc)). -/
def intersect3Valid (p q r : Plane) : Bool := (intersect3 p q r).w ≠ 0

/-- A Pluecker-like line: the cross product of two plane normals plus
cross-terms with the two d coefficients (ipg::line, line.hh). -/
structure Line where
  ab_ba : ℤ
  bc_cb : ℤ
  ca_ac : ℤ
  ad_da : ℤ
  bd_db : ℤ
  cd_dc : ℤ
  deriving DecidableEq, Repr

/-- ipg::intersect(plane, plane) (intersect.hh): the line of intersection
of two planes. -/
def intersectPP (p0 p1 : Plane) : Line :=
  { bc_cb := p0.b * p1.c - p0.c * p1.b
    ca_ac := p0.c * p1.a - p0.a * p1.c
    ab_ba := p0.a * p1.b - p0.b * p1.a
    ad_da := p0.a * p1.d - p0.d * p1.a
    bd_db := p0.b * p1.d - p0.d * p1.b
    cd_dc := p0.c * p1.d - p0.d * p1.c }

/-- ipg::intersect(line, plane) (intersect.hh): the homogeneous point
where a line meets a plane. -/
def intersectLP (l : Line) (p : Plane) : Point4 :=
  { x := p.c * l.bd_db - p.b * l.cd_dc - p.d * l.bc_cb
    y := p.a * l.cd_dc - p.c * l.ad_da - p.d * l.ca_ac
    z := p.b * l.ad_da - p.a * l.bd_db - p.d * l.ab_ba
    w := p.a * l.bc_cb + p.b * l.ca_ac + p.c * l.ab_ba }

/-- ipg::any_point(plane) (any_point.hh): a valid point on the plane,
taken on the first coordinate axis whose normal component is nonzero. -/
def anyPointPlane (p : Plane) : Point4 :=
  if p.a ≠ 0 then ⟨-p.d, 0, 0, p.a⟩
  else if p.b ≠ 0 then ⟨0, -p.d, 0, p.b⟩
  else ⟨0, 0, -p.d, p.c⟩

/-- ipg::any_point(line) (any_point.hh).  The C++ body is a sequence of
three independent if statements, so a later branch overwrites an earlier
one; for an invalid line (all direction components zero) the C++ point is
left default-initialized, rendered here as the zero point. -/
def anyPointLine (l : Line) : Point4 :=
  if l.ab_ba ≠ 0 then ⟨l.bd_db, -l.ad_da, 0, l.ab_ba⟩
  else if l.ca_ac ≠ 0 then ⟨-l.cd_dc, 0, l.ad_da, l.ca_ac⟩
  else if l.bc_cb ≠ 0 then ⟨0, l.cd_dc, -l.bd_db, l.bc_cb⟩
  else ⟨0, 0, 0, 0⟩

/-- ipg::are_parallel(plane, plane) (are_parallel.hh): the cross product
of the two normals is zero. -/
def areParallelPP (p0 p1 : Plane) : Bool :=
  p0.b * p1.c - p0.c * p1.b = 0 ∧ p0.c * p1.a - p0.a * p1.c = 0 ∧
    p0.a * p1.b - p0.b * p1.a = 0

/-- ipg::are_parallel(plane, line) (are_parallel.hh): the dot product of
the plane normal with the line direction (bc_cb, ca_ac, ab_ba) is zero. -/
def areParallelPL (p : Plane) (l : Line) : Bool :=
  p.a * l.bc_cb + p.b * l.ca_ac + p.c * l.ab_ba = 0

/-- The anonymous-namespace orientation helper of ExactSeidelSolverPoint
(lp-feasibility source): the sign of the dot product of the line direction
with the plane normal. -/
def orientLP (l : Line) (p : Plane) : ℤ :=
  isign (l.bc_cb * p.a + l.ca_ac * p.b + l.ab_ba * p.c)

/-! ### k-DOP bounding-volume oracle (KernelPlaneCut::intersects_bounding_volume) -/

/-- The K = 3 oracle (kernel-plane-cut.cc case 3): the plane may cut
unless the AABB classifies strictly negative. -/
def intersects3Dop (bb : Aabb) (pl : Plane) : Bool := 0 ≤ classifyAabb bb pl

/-- Corner candidates of the K >= 8 oracle: all ordered pairs of side
planes intersected with the maximal-dot plane
(KernelPlaneCut::intersects_bounding_volume<kdop_t>). -/
def kdopCornerCandidates (sidePlanes : List Plane) (maxPlane : Plane) : List Point4 :=
  (sidePlanes.map (fun pa => sidePlanes.map (fun pb => intersect3 pa pb maxPlane))).flatten

/-- The surviving corner candidates: those behind all side planes. -/
def kdopRealCorners (sidePlanes : List Plane) (maxPlane : Plane) : List Point4 :=
  (kdopCornerCandidates sidePlanes maxPlane).filter
    (fun cand => sidePlanes.all (fun pl => classify4 cand pl ≤ 0))

/-- The K >= 8 oracle (kernel-plane-cut.cc, template
intersects_bounding_volume): the plane may cut iff some real corner does
not classify strictly negative against it.  The side planes and the
maximal-dot plane are parameters here: in the C++ they are built from the
k-DOP axes and floor/ceil-rounded support distances, with the maximal
axis chosen in double precision; every such choice yields an instance of
these parameters. -/
def intersectsKdop (sidePlanes : List Plane) (maxPlane cutPlane : Plane) : Bool :=
  (kdopRealCorners sidePlanes maxPlane).any (fun corner => 0 ≤ classify4 corner cutPlane)

/-! ### Edge classification and the convex short-circuit
(KernelPlaneCut::init_edge_state, compute_kernel) -/

/-- The per-edge state (kernel-plane-cut.hh edge_state). -/
inductive EdgeState where
  | unclassified
  | convex
  | planar
  | concave
  | boundary
  | degenerate
  deriving DecidableEq, Repr

/-- KernelPlaneCut::init_edge_state, per edge: boundary edges are
boundary; an invalid incident face plane makes the edge degenerate;
otherwise the sign of the opposite vertex against plane A decides
(-1 convex, +1 concave, 0 planar iff the two normals have positive dot
product, else concave).  The C++ switch has an unreachable default that
leaves the state unclassified. -/
def classifyEdge (isBoundary : Bool) (pa pb : Plane) (opp : Pos3) : EdgeState :=
  if isBoundary then .boundary
  else if planeIsValid pa ∧ planeIsValid pb then
    let c := classifyPos opp pa
    if c = -1 then .convex
    else if c = 0 then
      (if isign (pa.a * pb.a + pa.b * pb.b + pa.c * pb.c) = 1 then .planar else .concave)
    else if c = 1 then .concave
    else .unclassified
  else .degenerate

/-- An edge of the input mesh as seen by init_edge_state: its boundary
flag, its two incident faces, and the position of the opposite vertex
(e.halfedgeB().next().vertex_to()). -/
structure InputEdge where
  isBoundary : Bool
  faceA : ℕ
  faceB : ℕ
  opp : Pos3
  deriving DecidableEq, Repr

/-- The input of compute_kernel after init_input_planes: the face planes
and the edges. -/
structure InputMesh where
  faces : List Plane
  edges : List InputEdge
  deriving Repr

/-- Face plane lookup with the C++ zero plane for out-of-range faces. -/
def facePlaneOf (faces : List Plane) (f : ℕ) : Plane := faces.getD f ⟨0, 0, 0, 0⟩

/-- The state init_edge_state computes for one edge of the input. -/
def edgeStateOf (m : InputMesh) (e : InputEdge) : EdgeState :=
  classifyEdge e.isBoundary (facePlaneOf m.faces e.faceA) (facePlaneOf m.faces e.faceB) e.opp

/-- The convexity flag m_input_is_convex (kernel-plane-cut.cc, end of
init_edge_state): every edge is convex or planar. -/
def isConvexInput (m : InputMesh) : Bool :=
  m.edges.all (fun e => edgeStateOf m e = .convex || edgeStateOf m e = .planar)

/-- The observable outcome of compute_kernel for the short-circuit claim:
the two flags, the number of plane-cut iterations executed, and the face
planes of the kernel surface handed to the caller. -/
structure KernelOutcome where
  hasKernel : Bool
  inputIsConvex : Bool
  cutsPerformed : ℕ
  kernelPlanes : List Plane
  deriving Repr

/-- KernelPlaneCut::compute_kernel at the granularity of the convex
short-circuit (kernel-plane-cut.cc lines 91-100): when is_convex() the
constructor sets m_has_kernel and m_input_is_convex and returns before
any cutting plane is built or processed, and the caller (KernelApp::
compute_mesh_kernel) then uses the input surface itself as the kernel;
otherwise the rest of the pipeline runs, abstracted by the parameter. -/
def computeKernelRun (rest : InputMesh → KernelOutcome) (m : InputMesh) : KernelOutcome :=
  if isConvexInput m then
    { hasKernel := true, inputIsConvex := true, cutsPerformed := 0, kernelPlanes := m.faces }
  else rest m

/-! ### Cutting-plane list construction
(KernelPlaneCut::init_cutting_planes_uset / init_cutting_planes_flood_fill)

Both routines consume the attributes computed upstream: the per-face input
plane (m_input_plane) and the per-edge state (m_input_edge_state). -/

/-- An edge as the two routines see it: its two incident faces and its
precomputed state. -/
structure AttrEdge where
  faceA : ℕ
  faceB : ℕ
  state : EdgeState
  deriving DecidableEq, Repr

/-- The attribute-level input of the two cutting-plane builders. -/
structure AttrMesh where
  facePlanes : List Plane
  edges : List AttrEdge
  deriving Repr

/-- Face plane lookup on the attribute mesh. -/
def attrFacePlane (m : AttrMesh) (f : ℕ) : Plane := facePlaneOf m.facePlanes f

/-- The face test of init_cutting_planes_uset: some incident edge is
concave, boundary or degenerate. -/
def faceIsConcaveAdjacent (m : AttrMesh) (f : ℕ) : Bool :=
  m.edges.any (fun e =>
    (e.faceA = f || e.faceB = f) &&
      (e.state = EdgeState.concave || e.state = EdgeState.boundary ||
        e.state = EdgeState.degenerate))

/-- The face scan of init_cutting_planes_uset: walk the faces in order,
skip invalid planes and planes already in the set, and partition the
remaining first-bearer faces into concave-adjacent ones and the rest. -/
def usetPartition (m : AttrMesh) : List ℕ → List Plane → List ℕ × List ℕ
  | [], _ => ([], [])
  | f :: fs, seen =>
    let p := attrFacePlane m f
    if planeIsValid p = false then usetPartition m fs seen
    else if p ∈ seen then usetPartition m fs seen
    else
      let pr := usetPartition m fs (p :: seen)
      if faceIsConcaveAdjacent m f then (f :: pr.1, pr.2) else (pr.1, f :: pr.2)

/-- The output of either cutting-plane builder: m_face_of_plane,
m_cutting_planes, and m_number_concave_planes. -/
structure CuttingPlanesResult where
  faceOfPlane : List ℕ
  cuttingPlanes : List Plane
  numConcave : ℕ
  deriving Repr

/-- KernelPlaneCut::init_cutting_planes_uset: emit the concave-adjacent
set representatives first, then the rest. -/
def initCuttingPlanesUset (m : AttrMesh) : CuttingPlanesResult :=
  let pr := usetPartition m (List.range m.facePlanes.length) []
  { faceOfPlane := pr.1 ++ pr.2
    cuttingPlanes := (pr.1 ++ pr.2).map (attrFacePlane m)
    numConcave := pr.1.length }

/-- The skip condition both builders share: convex and planar edges do not
make a face concave-adjacent. -/
def edgeSkipped (e : AttrEdge) : Bool :=
  e.state = EdgeState.convex || e.state = EdgeState.planar

/-- One representative visit of the flood-fill edge pass: the C++ block
if (!visited[rep]) { if (plane valid) push; visited[rep] = true; },
returning the emitted representatives and the updated visited set. -/
def visitRep (m : AttrMesh) (r : ℕ) (visited : List ℕ) : List ℕ × List ℕ :=
  if r ∈ visited then ([], visited)
  else if planeIsValid (attrFacePlane m r) then ([r], r :: visited)
  else ([], r :: visited)

/-- The edge pass of init_cutting_planes_flood_fill: for each edge that is
not convex and not planar, visit the union-find representatives of its two
faces, emitting each unvisited representative whose plane is valid.
Returns the emitted representatives and the final visited set. -/
def floodFillEdgePhase (m : AttrMesh) (find : ℕ → ℕ) :
    List AttrEdge → List ℕ → List ℕ × List ℕ
  | [], visited => ([], visited)
  | e :: es, visited =>
    if edgeSkipped e then
      floodFillEdgePhase m find es visited
    else
      let pa := visitRep m (find e.faceA) visited
      let pb := visitRep m (find e.faceB) pa.2
      let pr := floodFillEdgePhase m find es pb.2
      (pa.1 ++ (pb.1 ++ pr.1), pr.2)

/-- The face pass of init_cutting_planes_flood_fill: emit every so far
unvisited representative with a valid plane, in face order. -/
def floodFillFacePhase (m : AttrMesh) (find : ℕ → ℕ) :
    List ℕ → List ℕ → List ℕ
  | [], _ => []
  | f :: fs, visited =>
    let r := find f
    if r ∈ visited then floodFillFacePhase m find fs visited
    else if planeIsValid (attrFacePlane m r) then
      r :: floodFillFacePhase m find fs (r :: visited)
    else floodFillFacePhase m find fs (r :: visited)

/-- KernelPlaneCut::init_cutting_planes_flood_fill, parameterized over the
union-find representative map (the polymesh disjoint_set after the planar
merges; any disjoint-set implementation realizes some such map). -/
def initCuttingPlanesFloodFill (m : AttrMesh) (find : ℕ → ℕ) : CuttingPlanesResult :=
  let ep := floodFillEdgePhase m find m.edges []
  let fp := floodFillFacePhase m find (List.range m.facePlanes.length) ep.2
  { faceOfPlane := ep.1 ++ fp
    cuttingPlanes := (ep.1 ++ fp).map (attrFacePlane m)
    numConcave := ep.1.length }

/-! ### The exact Seidel feasibility solver (ExactSeidelSolverPoint)

The atomic stop flag is modelled as a boolean that is constant over the
run: the flag is only ever set (never cleared) while solve() runs, and the
model places the checks exactly where the C++ reads the atomic. -/

/-- ExactSeidelSolverPoint::state. -/
inductive SolverState where
  | infeasible
  | has_solution
  | unbounded
  | ambiguous
  deriving DecidableEq, Repr

/-- Plane lookup in the shuffled plane array of the solver. -/
def planeAt (planes : List Plane) (i : ℕ) : Plane := planes.getD i ⟨0, 0, 0, 0⟩

/-- ExactSeidelSolverPoint::solution: up to three supporting plane
indices (-1 when unset) together with the cached plane, line and point. -/
structure SeidelSolution where
  idx0 : ℤ := -1
  idx1 : ℤ := -1
  idx2 : ℤ := -1
  plane : Plane := ⟨0, 0, 0, 0⟩
  line : Line := ⟨0, 0, 0, 0, 0, 0⟩
  position : Point4 := ⟨0, 0, 0, 0⟩
  deriving DecidableEq, Repr

/-- solution::reset: clear the indices, keep the cached geometry. -/
def SeidelSolution.reset (s : SeidelSolution) : SeidelSolution :=
  { s with idx0 := -1, idx1 := -1, idx2 := -1 }

/-- solution::append: install the plane, then the line with the second
plane, then the point with the third. -/
def SeidelSolution.append (s : SeidelSolution) (i : ℕ) (p : Plane) : SeidelSolution :=
  if s.idx0 < 0 then { s with idx0 := i, plane := p }
  else if s.idx1 < 0 then { s with idx1 := i, line := intersectPP s.plane p }
  else { s with idx2 := i, position := intersectLP s.line p }

/-- solution::is_space. -/
def SeidelSolution.isSpace (s : SeidelSolution) : Bool := s.idx0 < 0

/-- solution::is_point. -/
def SeidelSolution.isPoint (s : SeidelSolution) : Bool := 0 ≤ s.idx2

/-- solution::is_line. -/
def SeidelSolution.isLine (s : SeidelSolution) : Bool := s.idx2 = -1 ∧ 0 ≤ s.idx1

/-- solution::is_plane. -/
def SeidelSolution.isPlane (s : SeidelSolution) : Bool := 0 ≤ s.idx0 ∧ s.idx1 < 0

/-- The interval of the 1D sub-solver (the local struct of solve_1D_problem):
bound indices (-1 when unset), bound points and bound orientations. -/
structure Interval1D where
  leftIdx : ℤ := -1
  rightIdx : ℤ := -1
  leftPoint : Point4 := ⟨0, 0, 0, 0⟩
  rightPoint : Point4 := ⟨0, 0, 0, 0⟩
  leftOrient : ℤ := 0
  rightOrient : ℤ := 0
  deriving DecidableEq, Repr

/-- interval::is_line. -/
def Interval1D.isLine (itv : Interval1D) : Bool := itv.leftIdx < 0

/-- interval::is_one_sided. -/
def Interval1D.isOneSided (itv : Interval1D) : Bool := 0 ≤ itv.leftIdx ∧ itv.rightIdx < 0

/-- interval::is_closed. -/
def Interval1D.isClosed (itv : Interval1D) : Bool := 0 ≤ itv.leftIdx ∧ 0 ≤ itv.rightIdx

/-- One plane iteration of the 1D sub-solver (the body of the loop in
ExactSeidelSolverPoint::solve_1D_problem) on the line ln: none means the
iteration reported infeasible. -/
def step1D (ln : Line) (itv : Interval1D) (i : ℕ) (pl : Plane) : Option Interval1D :=
  if itv.isClosed then
    let cl := classify4 itv.leftPoint pl
    let cr := classify4 itv.rightPoint pl
    if cl = 1 then
      if cr = 1 then none
      else some { itv with leftIdx := i, leftPoint := intersectLP ln pl }
    else
      if cr = 1 then some { itv with rightIdx := i, rightPoint := intersectLP ln pl }
      else some itv
  else if itv.isOneSided then
    let c := classify4 itv.leftPoint pl
    let o := orientLP ln pl
    if o = 0 then
      if 0 < c then none else some itv
    else if c = 1 then
      if o = itv.leftOrient then
        some { itv with leftIdx := i, leftOrient := o, leftPoint := intersectLP ln pl }
      else none
    else if o ≠ itv.leftOrient then
      some { itv with rightIdx := i, rightOrient := o, rightPoint := intersectLP ln pl }
    else some itv
  else
    let o := orientLP ln pl
    if o = 0 then
      if classify4 (anyPointLine ln) pl = 1 then none else some itv
    else
      some { itv with leftIdx := i, leftOrient := o, leftPoint := intersectLP ln pl }

/-- The 1D plane loop: fold step1D over the indexed plane list. -/
def solve1DLoop (ln : Line) : List (ℕ × Plane) → Interval1D → Option Interval1D
  | [], itv => some itv
  | ip :: rest, itv =>
    match step1D ln itv ip.1 ip.2 with
    | none => none
    | some itv2 => solve1DLoop ln rest itv2

/-- ExactSeidelSolverPoint::solve_1D_problem: fix the 3D and 2D planes,
run the interval loop over the first f2 planes, and append the left bound
to the solution on success. -/
def solve1D (planes : List Plane) (f3 f2 : ℕ) (sol : SeidelSolution) :
    SolverState × SeidelSolution :=
  let sol0 := ((sol.reset).append f3 (planeAt planes f3)).append f2 (planeAt planes f2)
  match solve1DLoop sol0.line (List.enum (planes.take f2)) {} with
  | none => (.infeasible, sol0)
  | some itv =>
    if 0 ≤ itv.leftIdx then
      (.has_solution, sol0.append itv.leftIdx.toNat (planeAt planes itv.leftIdx.toNat))
    else (.has_solution, sol0)

/-- The satisfied-or-absorb test of one 2D loop iteration: some means the
loop continues with the given solution, none means the current solution
violates the plane and the 1D sub-problem is needed. -/
def seidelStep2D (sol : SeidelSolution) (i : ℕ) (pl : Plane) : Option SeidelSolution :=
  if sol.isPoint then
    if classify4 sol.position pl ≤ 0 then some sol else none
  else if sol.isLine then
    if areParallelPL pl sol.line then
      if classify4 (anyPointLine sol.line) pl ≤ 0 then some sol else none
    else some (sol.append i pl)
  else
    if areParallelPP sol.plane pl then
      if classify4 (anyPointPlane sol.plane) pl ≤ 0 then some sol else none
    else some (sol.append i pl)

/-- The 2D plane loop (body of ExactSeidelSolverPoint::solve_2D_problem):
the stop flag is polled every 1000 planes. -/
def solve2DLoop (planes : List Plane) (stop : Bool) (f3 : ℕ) (fixedPlane : Plane) :
    List (ℕ × Plane) → SeidelSolution → SolverState × SeidelSolution
  | [], sol => (.has_solution, sol)
  | ip :: rest, sol =>
    if (ip.1 + 1) % 1000 = 0 ∧ stop then (.infeasible, sol)
    else
      match seidelStep2D sol ip.1 ip.2 with
      | some sol2 => solve2DLoop planes stop f3 fixedPlane rest sol2
      | none =>
        if areParallelPP ip.2 fixedPlane ∧ classify4 (anyPointPlane fixedPlane) ip.2 = 1 then
          (.infeasible, sol)
        else
          match solve1D planes f3 ip.1 sol with
          | (SolverState.infeasible, sol3) => (.infeasible, sol3)
          | (_, sol3) => solve2DLoop planes stop f3 fixedPlane rest sol3

/-- ExactSeidelSolverPoint::solve_2D_problem. -/
def solve2D (planes : List Plane) (stop : Bool) (f3 : ℕ) (sol : SeidelSolution) :
    SolverState × SeidelSolution :=
  let fixedPlane := planeAt planes f3
  let sol0 := (sol.reset).append f3 fixedPlane
  solve2DLoop planes stop f3 fixedPlane (List.enum (planes.take f3)) sol0

/-- The satisfied-or-absorb test of one 3D loop iteration; the whole-space
case absorbs the plane directly. -/
def seidelStep3D (sol : SeidelSolution) (i : ℕ) (pl : Plane) : Option SeidelSolution :=
  if sol.isPoint then
    if classify4 sol.position pl ≤ 0 then some sol else none
  else if sol.isLine then
    if areParallelPL pl sol.line then
      if classify4 (anyPointLine sol.line) pl ≤ 0 then some sol else none
    else some (sol.append i pl)
  else if sol.isPlane then
    if areParallelPP sol.plane pl then
      if classify4 (anyPointPlane sol.plane) pl ≤ 0 then some sol else none
    else some (sol.append i pl)
  else some (sol.append i pl)

/-- The 3D plane loop (body of ExactSeidelSolverPoint::solve_3D_problem):
the stop flag is polled at the top of every iteration. -/
def solve3DLoop (planes : List Plane) (stop : Bool) :
    List (ℕ × Plane) → SeidelSolution → SolverState × SeidelSolution
  | [], sol => (.has_solution, sol)
  | ip :: rest, sol =>
    if stop then (.infeasible, sol)
    else
      match seidelStep3D sol ip.1 ip.2 with
      | some sol2 => solve3DLoop planes stop rest sol2
      | none =>
        match solve2D planes stop ip.1 sol with
        | (SolverState.infeasible, sol3) => (.infeasible, sol3)
        | (_, sol3) => solve3DLoop planes stop rest sol3

/-- ExactSeidelSolverPoint::solve: run the 3D problem on the plane set. -/
def solveSeidel (planes : List Plane) (stop : Bool) : SolverState :=
  (solve3DLoop planes stop (List.enum planes) ({} : SeidelSolution)).1

/-- A three-face attribute input on which the plane-level reading of the
cutting-plane claim fails.  It is the attribute image of a mesh with two
parts: faces 0 and 1 are distinct coplanar faces with the identical plane
tuple P = (0, 0, 1, -1) (two separate patches of the same plane, not
merged by any planar edge, as with two disjoint components whose top faces
are coplanar and congruent), face 2 carries Q = (1, 0, 0, 0); the edge
between faces 1 and 2 is concave, the edge between faces 0 and 2 is
convex. -/
def counterMeshC4 : AttrMesh :=
  { facePlanes := [⟨0, 0, 1, -1⟩, ⟨0, 0, 1, -1⟩, ⟨1, 0, 0, 0⟩]
    edges := [⟨1, 2, EdgeState.concave⟩, ⟨0, 2, EdgeState.convex⟩] }

/-- The matrix of the three plane normals over the rationals, used to state
general position as linear independence. -/
def normalMatrix (p q r : Plane) : Matrix (Fin 3) (Fin 3) ℚ :=
  Matrix.of ![![(p.a : ℚ), p.b, p.c], ![(q.a : ℚ), q.b, q.c], ![(r.a : ℚ), r.b, r.c]]

/-! ## Helper lemmas -/

theorem isign_cases (n : ℤ) : isign n = -1 ∨ isign n = 0 ∨ isign n = 1 := by
  unfold isign
  rcases lt_trichotomy n 0 with h | h | h
  · exact Or.inl (Int.sign_eq_neg_one_iff_neg.mpr h)
  · exact Or.inr (Or.inl (by simp [h]))
  · exact Or.inr (Or.inr (Int.sign_eq_one_iff_pos.mpr h))

theorem isign_eq_zero_iff {n : ℤ} : isign n = 0 ↔ n = 0 := by
  simp [isign, Int.sign_eq_zero_iff_zero]

theorem classify4_zero_point (pl : Plane) : classify4 ⟨0, 0, 0, 0⟩ pl = 0 := by
  simp [classify4, isign]

/-- Relating the plane equation at a W = 1 promotion to the signed
distance. -/
theorem planeEval_point4OfPos (pl : Plane) (q : Pos3) :
    planeEval pl (point4OfPos q) = signedDistance pl q := by
  simp only [planeEval, point4OfPos, signedDistance]
  ring

/-! ## C10 -/

/-- C10: for every integer position and every plane, classifying the
position promoted to a homogeneous point with W = 1 agrees with the direct
sign-of-signed-distance classification, so the two classify embeddings on
the decision path can never produce inconsistent signs. -/
theorem classify_embeddings_agree (q : Pos3) (pl : Plane) :
    classify4 (point4OfPos q) pl = classifyPos q pl := by
  unfold classify4 classifyPos
  rw [planeEval_point4OfPos]
  simp [point4OfPos, isign]

/-! ## C7 -/

/-- C7: classify on a homogeneous point is the sign of
a*X + b*Y + c*Z + d*W multiplied by the sign of W; within the declared bit
widths of geometry<26, 55> the linear form is bounded by 2^253 (the C++
computes it in a 256-bit integer via mul<253>, so the computation is
exact); and for a valid point (W nonzero) the result is 0 exactly when the
Euclidean point (X/W, Y/W, Z/W) lies on the plane. -/
theorem classify_point4_exact (pt : Point4) (pl : Plane)
    (hx : |pt.x| ≤ 2 ^ 196) (hy : |pt.y| ≤ 2 ^ 196) (hz : |pt.z| ≤ 2 ^ 196)
    (hw : |pt.w| ≤ 2 ^ 168)
    (ha : |pl.a| ≤ 2 ^ 55) (hb : |pl.b| ≤ 2 ^ 55) (hc : |pl.c| ≤ 2 ^ 55)
    (hd : |pl.d| ≤ 2 ^ 83) :
    classify4 pt pl = isign (planeEval pl pt) * isign pt.w
    ∧ |planeEval pl pt| ≤ 2 ^ 253
    ∧ (pt.w ≠ 0 →
        (classify4 pt pl = 0 ↔
          (pl.a : ℚ) * ((pt.x : ℚ) / (pt.w : ℚ)) + (pl.b : ℚ) * ((pt.y : ℚ) / (pt.w : ℚ))
            + (pl.c : ℚ) * ((pt.z : ℚ) / (pt.w : ℚ)) + (pl.d : ℚ) = 0)) := by
  refine ⟨rfl, ?_, ?_⟩
  · have h1 : |pl.a * pt.x| ≤ 2 ^ 251 := by
      rw [abs_mul]
      calc |pl.a| * |pt.x| ≤ 2 ^ 55 * 2 ^ 196 :=
            mul_le_mul ha hx (abs_nonneg _) (by positivity)
        _ = 2 ^ 251 := by norm_num
    have h2 : |pl.b * pt.y| ≤ 2 ^ 251 := by
      rw [abs_mul]
      calc |pl.b| * |pt.y| ≤ 2 ^ 55 * 2 ^ 196 :=
            mul_le_mul hb hy (abs_nonneg _) (by positivity)
        _ = 2 ^ 251 := by norm_num
    have h3 : |pl.c * pt.z| ≤ 2 ^ 251 := by
      rw [abs_mul]
      calc |pl.c| * |pt.z| ≤ 2 ^ 55 * 2 ^ 196 :=
            mul_le_mul hc hz (abs_nonneg _) (by positivity)
        _ = 2 ^ 251 := by norm_num
    have h4 : |pl.d * pt.w| ≤ 2 ^ 251 := by
      rw [abs_mul]
      calc |pl.d| * |pt.w| ≤ 2 ^ 83 * 2 ^ 168 :=
            mul_le_mul hd hw (abs_nonneg _) (by positivity)
        _ = 2 ^ 251 := by norm_num
    calc |planeEval pl pt|
        ≤ |pl.a * pt.x + pl.b * pt.y| + |pl.c * pt.z + pl.d * pt.w| := abs_add _ _
      _ ≤ (|pl.a * pt.x| + |pl.b * pt.y|) + (|pl.c * pt.z| + |pl.d * pt.w|) :=
          add_le_add (abs_add _ _) (abs_add _ _)
      _ ≤ (2 ^ 251 + 2 ^ 251) + (2 ^ 251 + 2 ^ 251) := by
          exact add_le_add (add_le_add h1 h2) (add_le_add h3 h4)
      _ = 2 ^ 253 := by norm_num
  · intro hw0
    have hwQ : (pt.w : ℚ) ≠ 0 := Int.cast_ne_zero.mpr hw0
    have key : (pl.a : ℚ) * ((pt.x : ℚ) / (pt.w : ℚ)) + (pl.b : ℚ) * ((pt.y : ℚ) / (pt.w : ℚ))
        + (pl.c : ℚ) * ((pt.z : ℚ) / (pt.w : ℚ)) + (pl.d : ℚ)
        = (planeEval pl pt : ℚ) / (pt.w : ℚ) := by
      field_simp
      push_cast [planeEval]
      ring
    have hzero : classify4 pt pl = 0 ↔ planeEval pl pt = 0 := by
      constructor
      · intro h
        rcases mul_eq_zero.mp h with h' | h'
        · exact isign_eq_zero_iff.mp h'
        · exact absurd (isign_eq_zero_iff.mp h') hw0
      · intro h
        simp [classify4, h, isign]
    rw [hzero, key, div_eq_zero_iff]
    constructor
    · intro h
      exact Or.inl (by exact_mod_cast h)
    · rintro (h | h)
      · exact_mod_cast h
      · exact absurd h hwQ

/-! ## C9 -/

/-- C9: the three-plane intersection returns the homogeneous point whose W
component is the 3x3 determinant of the three normals, whose X, Y, Z
components make the point satisfy all three plane equations (so with
W nonzero it is the common intersection point), and whose boolean result
holds exactly when W is nonzero, which happens exactly when the three
normals are linearly independent (the planes are in general position). -/
theorem intersect_three_planes_exact (p q r : Plane) :
    (intersect3 p q r).w = det3 p.a p.b p.c q.a q.b q.c r.a r.b r.c
    ∧ planeEval p (intersect3 p q r) = 0
    ∧ planeEval q (intersect3 p q r) = 0
    ∧ planeEval r (intersect3 p q r) = 0
    ∧ (intersect3Valid p q r = true ↔ (intersect3 p q r).w ≠ 0)
    ∧ ((intersect3 p q r).w ≠ 0 ↔
        LinearIndependent ℚ (fun i => normalMatrix p q r i)) := by
  refine ⟨?_, ?_, ?_, ?_, ?_, ?_⟩
  · simp only [intersect3, det3]
    ring
  · simp only [intersect3, planeEval]
    ring
  · simp only [intersect3, planeEval]
    ring
  · simp only [intersect3, planeEval]
    ring
  · simp [intersect3Valid]
  · have hdet : (normalMatrix p q r).det = ((intersect3 p q r).w : ℚ) := by
      rw [Matrix.det_fin_three]
      simp [normalMatrix, intersect3]
      ring
    rw [Matrix.linearIndependent_rows_iff_isUnit, Matrix.isUnit_iff_isUnit_det, isUnit_iff_ne_zero,
      hdet]
    exact (Int.cast_ne_zero (α := ℚ)).symm

/-- Witness for C7: the homogeneous point (0, 0, 0, 1) against the plane
x = 0 satisfies all bit-width bounds and classifies 0, lying on the
plane. -/
theorem classify_point4_exact_witness :
    classify4 ⟨0, 0, 0, 1⟩ ⟨1, 0, 0, 0⟩
        = isign (planeEval ⟨1, 0, 0, 0⟩ ⟨0, 0, 0, 1⟩) * isign 1
    ∧ |planeEval ⟨1, 0, 0, 0⟩ ⟨0, 0, 0, 1⟩| ≤ 2 ^ 253
    ∧ ((1 : ℤ) ≠ 0 →
        (classify4 ⟨0, 0, 0, 1⟩ ⟨1, 0, 0, 0⟩ = 0 ↔
          ((1 : ℤ) : ℚ) * (((0 : ℤ) : ℚ) / ((1 : ℤ) : ℚ))
            + ((0 : ℤ) : ℚ) * (((0 : ℤ) : ℚ) / ((1 : ℤ) : ℚ))
            + ((0 : ℤ) : ℚ) * (((0 : ℤ) : ℚ) / ((1 : ℤ) : ℚ)) + ((0 : ℤ) : ℚ) = 0)) :=
  classify_point4_exact ⟨0, 0, 0, 1⟩ ⟨1, 0, 0, 0⟩ (by norm_num) (by norm_num) (by norm_num)
    (by norm_num) (by norm_num) (by norm_num) (by norm_num) (by norm_num)

/-! ## C8 -/

/-- Unfolding of the AABB classification into its two comparisons. -/
theorem classifyAabb_def (bb : Aabb) (pl : Plane) :
    classifyAabb bb pl =
      if (bb.hi.x - bb.lo.x) * |pl.a| + (bb.hi.y - bb.lo.y) * |pl.b|
            + (bb.hi.z - bb.lo.z) * |pl.c|
          + (pl.d * 2 + (bb.lo.x + bb.hi.x) * pl.a + (bb.lo.y + bb.hi.y) * pl.b
            + (bb.lo.z + bb.hi.z) * pl.c) < 0 then -1
      else if (bb.hi.x - bb.lo.x) * |pl.a| + (bb.hi.y - bb.lo.y) * |pl.b|
            + (bb.hi.z - bb.lo.z) * |pl.c|
          - (pl.d * 2 + (bb.lo.x + bb.hi.x) * pl.a + (bb.lo.y + bb.hi.y) * pl.b
            + (bb.lo.z + bb.hi.z) * pl.c) < 0 then 1
      else 0 := rfl

/-- Twice the signed distance of a box corner, with the doubled terms the
AABB classification compares. -/
theorem corner_sd_formula (bb : Aabb) (pl : Plane) (b1 b2 b3 : Bool) :
    2 * signedDistance pl (cornerOf bb b1 b2 b3)
      = 2 * pl.d + 2 * ((if b1 then bb.hi.x else bb.lo.x) * pl.a)
        + 2 * ((if b2 then bb.hi.y else bb.lo.y) * pl.b)
        + 2 * ((if b3 then bb.hi.z else bb.lo.z) * pl.c) := by
  show 2 * (pl.a * (if b1 then bb.hi.x else bb.lo.x) + pl.b * (if b2 then bb.hi.y else bb.lo.y)
      + pl.c * (if b3 then bb.hi.z else bb.lo.z) + pl.d) = _
  ring

theorem comp_corner_le (lo hi n : ℤ) (h : lo ≤ hi) (b : Bool) :
    2 * ((if b then hi else lo) * n) ≤ (lo + hi) * n + (hi - lo) * |n| := by
  cases b <;> simp only [if_true, if_false, Bool.false_eq_true]
  · nlinarith [mul_nonneg (sub_nonneg.mpr h) (sub_nonneg.mpr (neg_abs_le n))]
  · nlinarith [mul_nonneg (sub_nonneg.mpr h) (sub_nonneg.mpr (le_abs_self n))]

theorem comp_corner_ge (lo hi n : ℤ) (h : lo ≤ hi) (b : Bool) :
    (lo + hi) * n - (hi - lo) * |n| ≤ 2 * ((if b then hi else lo) * n) := by
  cases b <;> simp only [if_true, if_false, Bool.false_eq_true]
  · nlinarith [mul_nonneg (sub_nonneg.mpr h) (sub_nonneg.mpr (le_abs_self n))]
  · nlinarith [mul_nonneg (sub_nonneg.mpr h) (sub_nonneg.mpr (neg_abs_le n))]

theorem comp_corner_max (lo hi n : ℤ) :
    2 * ((if decide (0 ≤ n) then hi else lo) * n) = (lo + hi) * n + (hi - lo) * |n| := by
  by_cases hn : 0 ≤ n
  · simp only [hn, decide_True, if_true, abs_of_nonneg hn]
    ring
  · simp only [hn, decide_False, Bool.false_eq_true, if_false, abs_of_neg (lt_of_not_ge hn)]
    ring

theorem comp_corner_min (lo hi n : ℤ) :
    2 * ((if decide (n < 0) then hi else lo) * n) = (lo + hi) * n - (hi - lo) * |n| := by
  by_cases hn : n < 0
  · simp only [hn, decide_True, if_true, abs_of_neg hn]
    ring
  · simp only [hn, decide_False, Bool.false_eq_true, if_false, abs_of_nonneg (le_of_not_lt hn)]
    ring

/-- Every corner of a proper box has its doubled signed distance between
the two bounds the AABB classification compares, and both bounds are
attained by some corner. -/
theorem corner_sd_le (bb : Aabb) (pl : Plane)
    (hx : bb.lo.x ≤ bb.hi.x) (hy : bb.lo.y ≤ bb.hi.y) (hz : bb.lo.z ≤ bb.hi.z)
    (b1 b2 b3 : Bool) :
    2 * signedDistance pl (cornerOf bb b1 b2 b3)
      ≤ (pl.d * 2 + (bb.lo.x + bb.hi.x) * pl.a + (bb.lo.y + bb.hi.y) * pl.b
          + (bb.lo.z + bb.hi.z) * pl.c)
        + ((bb.hi.x - bb.lo.x) * |pl.a| + (bb.hi.y - bb.lo.y) * |pl.b|
          + (bb.hi.z - bb.lo.z) * |pl.c|) := by
  have h1 := comp_corner_le bb.lo.x bb.hi.x pl.a hx b1
  have h2 := comp_corner_le bb.lo.y bb.hi.y pl.b hy b2
  have h3 := comp_corner_le bb.lo.z bb.hi.z pl.c hz b3
  have h0 := corner_sd_formula bb pl b1 b2 b3
  linarith

theorem corner_sd_ge (bb : Aabb) (pl : Plane)
    (hx : bb.lo.x ≤ bb.hi.x) (hy : bb.lo.y ≤ bb.hi.y) (hz : bb.lo.z ≤ bb.hi.z)
    (b1 b2 b3 : Bool) :
    (pl.d * 2 + (bb.lo.x + bb.hi.x) * pl.a + (bb.lo.y + bb.hi.y) * pl.b
        + (bb.lo.z + bb.hi.z) * pl.c)
      - ((bb.hi.x - bb.lo.x) * |pl.a| + (bb.hi.y - bb.lo.y) * |pl.b|
        + (bb.hi.z - bb.lo.z) * |pl.c|)
      ≤ 2 * signedDistance pl (cornerOf bb b1 b2 b3) := by
  have h1 := comp_corner_ge bb.lo.x bb.hi.x pl.a hx b1
  have h2 := comp_corner_ge bb.lo.y bb.hi.y pl.b hy b2
  have h3 := comp_corner_ge bb.lo.z bb.hi.z pl.c hz b3
  have h0 := corner_sd_formula bb pl b1 b2 b3
  linarith

theorem corner_sd_max (bb : Aabb) (pl : Plane) :
    2 * signedDistance pl
        (cornerOf bb (decide (0 ≤ pl.a)) (decide (0 ≤ pl.b)) (decide (0 ≤ pl.c)))
      = (pl.d * 2 + (bb.lo.x + bb.hi.x) * pl.a + (bb.lo.y + bb.hi.y) * pl.b
          + (bb.lo.z + bb.hi.z) * pl.c)
        + ((bb.hi.x - bb.lo.x) * |pl.a| + (bb.hi.y - bb.lo.y) * |pl.b|
          + (bb.hi.z - bb.lo.z) * |pl.c|) := by
  have h1 := comp_corner_max bb.lo.x bb.hi.x pl.a
  have h2 := comp_corner_max bb.lo.y bb.hi.y pl.b
  have h3 := comp_corner_max bb.lo.z bb.hi.z pl.c
  have h0 := corner_sd_formula bb pl (decide (0 ≤ pl.a)) (decide (0 ≤ pl.b)) (decide (0 ≤ pl.c))
  linarith

theorem corner_sd_min (bb : Aabb) (pl : Plane) :
    2 * signedDistance pl
        (cornerOf bb (decide (pl.a < 0)) (decide (pl.b < 0)) (decide (pl.c < 0)))
      = (pl.d * 2 + (bb.lo.x + bb.hi.x) * pl.a + (bb.lo.y + bb.hi.y) * pl.b
          + (bb.lo.z + bb.hi.z) * pl.c)
        - ((bb.hi.x - bb.lo.x) * |pl.a| + (bb.hi.y - bb.lo.y) * |pl.b|
          + (bb.hi.z - bb.lo.z) * |pl.c|) := by
  have h1 := comp_corner_min bb.lo.x bb.hi.x pl.a
  have h2 := comp_corner_min bb.lo.y bb.hi.y pl.b
  have h3 := comp_corner_min bb.lo.z bb.hi.z pl.c
  have h0 := corner_sd_formula bb pl (decide (pl.a < 0)) (decide (pl.b < 0)) (decide (pl.c < 0))
  linarith

theorem classifyAabb_cases (bb : Aabb) (pl : Plane) :
    classifyAabb bb pl = -1 ∨ classifyAabb bb pl = 0 ∨ classifyAabb bb pl = 1 := by
  rw [classifyAabb_def]
  split_ifs <;> simp

/-- The strictly-negative characterization of the AABB classification. -/
theorem classifyAabb_neg_iff (bb : Aabb) (pl : Plane)
    (hx : bb.lo.x ≤ bb.hi.x) (hy : bb.lo.y ≤ bb.hi.y) (hz : bb.lo.z ≤ bb.hi.z) :
    classifyAabb bb pl = -1 ↔
      ∀ b1 b2 b3 : Bool, signedDistance pl (cornerOf bb b1 b2 b3) < 0 := by
  have hiff : classifyAabb bb pl = -1 ↔
      (bb.hi.x - bb.lo.x) * |pl.a| + (bb.hi.y - bb.lo.y) * |pl.b|
          + (bb.hi.z - bb.lo.z) * |pl.c|
        + (pl.d * 2 + (bb.lo.x + bb.hi.x) * pl.a + (bb.lo.y + bb.hi.y) * pl.b
          + (bb.lo.z + bb.hi.z) * pl.c) < 0 := by
    rw [classifyAabb_def]
    split_ifs with h1 h2 <;> simp [h1]
  rw [hiff]
  constructor
  · intro h b1 b2 b3
    have := corner_sd_le bb pl hx hy hz b1 b2 b3
    linarith
  · intro h
    have hm := corner_sd_max bb pl
    have := h (decide (0 ≤ pl.a)) (decide (0 ≤ pl.b)) (decide (0 ≤ pl.c))
    linarith

/-- The strictly-positive characterization of the AABB classification. -/
theorem classifyAabb_pos_iff (bb : Aabb) (pl : Plane)
    (hx : bb.lo.x ≤ bb.hi.x) (hy : bb.lo.y ≤ bb.hi.y) (hz : bb.lo.z ≤ bb.hi.z) :
    classifyAabb bb pl = 1 ↔
      ∀ b1 b2 b3 : Bool, 0 < signedDistance pl (cornerOf bb b1 b2 b3) := by
  have hH : 0 ≤ (bb.hi.x - bb.lo.x) * |pl.a| + (bb.hi.y - bb.lo.y) * |pl.b|
      + (bb.hi.z - bb.lo.z) * |pl.c| := by
    have p1 := mul_nonneg (sub_nonneg.mpr hx) (abs_nonneg pl.a)
    have p2 := mul_nonneg (sub_nonneg.mpr hy) (abs_nonneg pl.b)
    have p3 := mul_nonneg (sub_nonneg.mpr hz) (abs_nonneg pl.c)
    linarith
  have hiff : classifyAabb bb pl = 1 ↔
      (bb.hi.x - bb.lo.x) * |pl.a| + (bb.hi.y - bb.lo.y) * |pl.b|
          + (bb.hi.z - bb.lo.z) * |pl.c|
        - (pl.d * 2 + (bb.lo.x + bb.hi.x) * pl.a + (bb.lo.y + bb.hi.y) * pl.b
          + (bb.lo.z + bb.hi.z) * pl.c) < 0 := by
    rw [classifyAabb_def]
    split_ifs with h1 h2 <;> (simp; linarith)
  rw [hiff]
  constructor
  · intro h b1 b2 b3
    have := corner_sd_ge bb pl hx hy hz b1 b2 b3
    linarith
  · intro h
    have hm := corner_sd_min bb pl
    have := h (decide (pl.a < 0)) (decide (pl.b < 0)) (decide (pl.c < 0))
    linarith

/-- C8: for every integer AABB (with min at most max, coordinates within
the 2^26 position bound) and every valid plane, the AABB classification,
computed by comparing 2*d + (min+max).n against the component-wise
absolute sum |(max-min).n|, returns +1 iff the box is strictly on the
positive side (every corner has positive signed distance), -1 iff the box
is strictly on the negative side, and one of -1, 0, +1 always. -/
theorem classify_aabb_strict_sides (bb : Aabb) (pl : Plane)
    (hx : bb.lo.x ≤ bb.hi.x) (hy : bb.lo.y ≤ bb.hi.y) (hz : bb.lo.z ≤ bb.hi.z)
    (hb1 : |bb.lo.x| ≤ 2 ^ 26) (hb2 : |bb.lo.y| ≤ 2 ^ 26) (hb3 : |bb.lo.z| ≤ 2 ^ 26)
    (hb4 : |bb.hi.x| ≤ 2 ^ 26) (hb5 : |bb.hi.y| ≤ 2 ^ 26) (hb6 : |bb.hi.z| ≤ 2 ^ 26)
    (hval : planeIsValid pl = true) :
    (classifyAabb bb pl = 1 ↔
      ∀ b1 b2 b3 : Bool, 0 < signedDistance pl (cornerOf bb b1 b2 b3))
    ∧ (classifyAabb bb pl = -1 ↔
      ∀ b1 b2 b3 : Bool, signedDistance pl (cornerOf bb b1 b2 b3) < 0)
    ∧ (classifyAabb bb pl = -1 ∨ classifyAabb bb pl = 0 ∨ classifyAabb bb pl = 1) :=
  ⟨classifyAabb_pos_iff bb pl hx hy hz, classifyAabb_neg_iff bb pl hx hy hz,
    classifyAabb_cases bb pl⟩

/-- Witness for C8 at the unit box against the plane x = 5, which the box
lies strictly below. -/
theorem classify_aabb_strict_sides_witness :
    (classifyAabb ⟨⟨0, 0, 0⟩, ⟨1, 1, 1⟩⟩ ⟨1, 0, 0, -5⟩ = 1 ↔
      ∀ b1 b2 b3 : Bool,
        0 < signedDistance ⟨1, 0, 0, -5⟩ (cornerOf ⟨⟨0, 0, 0⟩, ⟨1, 1, 1⟩⟩ b1 b2 b3))
    ∧ (classifyAabb ⟨⟨0, 0, 0⟩, ⟨1, 1, 1⟩⟩ ⟨1, 0, 0, -5⟩ = -1 ↔
      ∀ b1 b2 b3 : Bool,
        signedDistance ⟨1, 0, 0, -5⟩ (cornerOf ⟨⟨0, 0, 0⟩, ⟨1, 1, 1⟩⟩ b1 b2 b3) < 0)
    ∧ (classifyAabb ⟨⟨0, 0, 0⟩, ⟨1, 1, 1⟩⟩ ⟨1, 0, 0, -5⟩ = -1
        ∨ classifyAabb ⟨⟨0, 0, 0⟩, ⟨1, 1, 1⟩⟩ ⟨1, 0, 0, -5⟩ = 0
        ∨ classifyAabb ⟨⟨0, 0, 0⟩, ⟨1, 1, 1⟩⟩ ⟨1, 0, 0, -5⟩ = 1) :=
  classify_aabb_strict_sides ⟨⟨0, 0, 0⟩, ⟨1, 1, 1⟩⟩ ⟨1, 0, 0, -5⟩ (by norm_num) (by norm_num)
    (by norm_num) (by norm_num) (by norm_num) (by norm_num) (by norm_num) (by norm_num)
    (by norm_num) (by decide)

/-! ## C3 -/

/-- C3: the bounding-volume oracle never prunes a plane that could cut.
For K = 3 the oracle reports no intersection only when the whole box, in
particular every box corner, lies strictly on the negative side of the
plane.  For K in {8, 9, 12} the template oracle never reports
no-intersection at all (the corner-candidate enumeration pairs every side
plane with itself, and such a degenerate candidate is the zero homogeneous
point, which classifies 0 against every plane, survives the behind-all
filter and then stops the pruning), so the pruning condition is vacuously
conservative. -/
theorem kdop_oracle_conservative :
    (∀ (bb : Aabb) (pl : Plane), bb.lo.x ≤ bb.hi.x → bb.lo.y ≤ bb.hi.y → bb.lo.z ≤ bb.hi.z →
      intersects3Dop bb pl = false →
      ∀ b1 b2 b3 : Bool, classifyPos (cornerOf bb b1 b2 b3) pl < 0)
    ∧ (∀ (sidePlanes : List Plane) (maxPlane cutPlane : Plane), sidePlanes ≠ [] →
      intersectsKdop sidePlanes maxPlane cutPlane = true) := by
  constructor
  · intro bb pl hx hy hz hfalse b1 b2 b3
    have h1 : ¬ (0 ≤ classifyAabb bb pl) := by
      simpa [intersects3Dop] using hfalse
    have h2 : classifyAabb bb pl = -1 := by
      rcases classifyAabb_cases bb pl with h | h | h
      · exact h
      · exact absurd (le_of_eq h.symm) h1
      · exact absurd (h ▸ by norm_num) h1
    have h3 := (classifyAabb_neg_iff bb pl hx hy hz).mp h2 b1 b2 b3
    have : classifyPos (cornerOf bb b1 b2 b3) pl = -1 :=
      Int.sign_eq_neg_one_iff_neg.mpr h3
    omega
  · intro sp maxPl cut hne
    rcases sp with _ | ⟨p, rest⟩
    · exact absurd rfl hne
    · have hself : intersect3 p p maxPl = ⟨0, 0, 0, 0⟩ := by
        simp only [intersect3, Point4.mk.injEq]
        refine ⟨by ring, by ring, by ring, by ring⟩
      unfold intersectsKdop kdopRealCorners kdopCornerCandidates
      rw [List.any_eq_true]
      refine ⟨⟨0, 0, 0, 0⟩, ?_, ?_⟩
      · rw [List.mem_filter]
        constructor
        · rw [List.mem_flatten]
          refine ⟨(p :: rest).map (fun pb => intersect3 p pb maxPl), ?_, ?_⟩
          · exact List.mem_map.mpr ⟨p, List.mem_cons_self _ _, rfl⟩
          · exact List.mem_map.mpr ⟨p, List.mem_cons_self _ _, hself⟩
        · rw [List.all_eq_true]
          intro pl0 _
          simp [classify4_zero_point]
      · simp [classify4_zero_point]

/-- Witness for C3: a pruned plane far beyond the unit box has every box
corner strictly behind it, and the template oracle on a one-plane side
list reports a possible intersection. -/
theorem kdop_oracle_conservative_witness :
    (∀ b1 b2 b3 : Bool,
      classifyPos (cornerOf ⟨⟨0, 0, 0⟩, ⟨1, 1, 1⟩⟩ b1 b2 b3) ⟨1, 0, 0, -5⟩ < 0)
    ∧ intersectsKdop [⟨1, 0, 0, -4⟩] ⟨0, 0, 1, -4⟩ ⟨1, 0, 0, -100⟩ = true :=
  ⟨kdop_oracle_conservative.1 ⟨⟨0, 0, 0⟩, ⟨1, 1, 1⟩⟩ ⟨1, 0, 0, -5⟩ (by norm_num) (by norm_num)
      (by norm_num) (by decide),
    kdop_oracle_conservative.2 [⟨1, 0, 0, -4⟩] ⟨0, 0, 1, -4⟩ ⟨1, 0, 0, -100⟩ (by decide)⟩

/-! ## C2 -/

/-- C2: when every edge of the input classifies as convex or planar, the
kernel constructor short-circuits: it reports input_is_convex and
has_kernel, performs no cutting, and the kernel surface handed to the
caller is the input surface itself (KernelApp copies the input mesh when
input_is_convex()), so its set of face planes is that of the input. -/
theorem convex_short_circuit (rest : InputMesh → KernelOutcome) (m : InputMesh)
    (h : ∀ e ∈ m.edges,
      edgeStateOf m e = EdgeState.convex ∨ edgeStateOf m e = EdgeState.planar) :
    (computeKernelRun rest m).inputIsConvex = true
    ∧ (computeKernelRun rest m).hasKernel = true
    ∧ (computeKernelRun rest m).cutsPerformed = 0
    ∧ (computeKernelRun rest m).kernelPlanes = m.faces
    ∧ ∀ p : Plane, p ∈ (computeKernelRun rest m).kernelPlanes ↔ p ∈ m.faces := by
  have hc : isConvexInput m = true := by
    rw [isConvexInput, List.all_eq_true]
    intro e he
    rcases h e he with h2 | h2 <;> simp [h2]
  simp [computeKernelRun, hc]

/-- Witness for C2 on a one-face, one-edge input whose single interior
edge classifies convex. -/
theorem convex_short_circuit_witness :
    (computeKernelRun (fun _ => ⟨false, false, 1, []⟩)
        ⟨[⟨0, 0, 1, 0⟩], [⟨false, 0, 0, ⟨0, 0, -1⟩⟩]⟩).inputIsConvex = true
    ∧ (computeKernelRun (fun _ => ⟨false, false, 1, []⟩)
        ⟨[⟨0, 0, 1, 0⟩], [⟨false, 0, 0, ⟨0, 0, -1⟩⟩]⟩).hasKernel = true
    ∧ (computeKernelRun (fun _ => ⟨false, false, 1, []⟩)
        ⟨[⟨0, 0, 1, 0⟩], [⟨false, 0, 0, ⟨0, 0, -1⟩⟩]⟩).cutsPerformed = 0
    ∧ (computeKernelRun (fun _ => ⟨false, false, 1, []⟩)
        ⟨[⟨0, 0, 1, 0⟩], [⟨false, 0, 0, ⟨0, 0, -1⟩⟩]⟩).kernelPlanes = [⟨0, 0, 1, 0⟩]
    ∧ ∀ p : Plane,
        p ∈ (computeKernelRun (fun _ => ⟨false, false, 1, []⟩)
          ⟨[⟨0, 0, 1, 0⟩], [⟨false, 0, 0, ⟨0, 0, -1⟩⟩]⟩).kernelPlanes ↔ p ∈ [⟨0, 0, 1, 0⟩] :=
  convex_short_circuit (fun _ => ⟨false, false, 1, []⟩)
    ⟨[⟨0, 0, 1, 0⟩], [⟨false, 0, 0, ⟨0, 0, -1⟩⟩]⟩ (by decide)

/-! ## C4: hash-set mode lemmas -/

theorem usetPartition_invalid (m : AttrMesh) (f : ℕ) (fs : List ℕ) (seen : List Plane)
    (h : planeIsValid (attrFacePlane m f) = false) :
    usetPartition m (f :: fs) seen = usetPartition m fs seen := by
  simp [usetPartition, h]

theorem usetPartition_seen (m : AttrMesh) (f : ℕ) (fs : List ℕ) (seen : List Plane)
    (h1 : planeIsValid (attrFacePlane m f) = true) (h2 : attrFacePlane m f ∈ seen) :
    usetPartition m (f :: fs) seen = usetPartition m fs seen := by
  simp [usetPartition, h1, h2]

theorem usetPartition_new_conc (m : AttrMesh) (f : ℕ) (fs : List ℕ) (seen : List Plane)
    (h1 : planeIsValid (attrFacePlane m f) = true) (h2 : attrFacePlane m f ∉ seen)
    (h3 : faceIsConcaveAdjacent m f = true) :
    usetPartition m (f :: fs) seen =
      (f :: (usetPartition m fs (attrFacePlane m f :: seen)).1,
        (usetPartition m fs (attrFacePlane m f :: seen)).2) := by
  simp [usetPartition, h1, h2, h3]

theorem usetPartition_new_conv (m : AttrMesh) (f : ℕ) (fs : List ℕ) (seen : List Plane)
    (h1 : planeIsValid (attrFacePlane m f) = true) (h2 : attrFacePlane m f ∉ seen)
    (h3 : faceIsConcaveAdjacent m f = false) :
    usetPartition m (f :: fs) seen =
      ((usetPartition m fs (attrFacePlane m f :: seen)).1,
        f :: (usetPartition m fs (attrFacePlane m f :: seen)).2) := by
  simp [usetPartition, h1, h2, h3]

/-- Invariants of the hash-set face scan: the concave list holds valid
concave-adjacent first-bearer faces, the other list the remaining valid
first-bearer faces, the emitted planes are distinct and unseen, and every
valid plane of a scanned face is either already seen or emitted. -/
theorem usetPartition_spec (m : AttrMesh) :
    ∀ (fs : List ℕ) (seen : List Plane),
      (∀ f ∈ (usetPartition m fs seen).1,
          f ∈ fs ∧ planeIsValid (attrFacePlane m f) = true
            ∧ faceIsConcaveAdjacent m f = true ∧ attrFacePlane m f ∉ seen)
      ∧ (∀ f ∈ (usetPartition m fs seen).2,
          f ∈ fs ∧ planeIsValid (attrFacePlane m f) = true
            ∧ faceIsConcaveAdjacent m f = false ∧ attrFacePlane m f ∉ seen)
      ∧ (((usetPartition m fs seen).1 ++ (usetPartition m fs seen).2).map
          (attrFacePlane m)).Nodup
      ∧ (∀ f ∈ fs, planeIsValid (attrFacePlane m f) = true →
          attrFacePlane m f ∈ seen
            ∨ attrFacePlane m f
                ∈ (((usetPartition m fs seen).1 ++ (usetPartition m fs seen).2).map
                    (attrFacePlane m)))
  | [], seen => by simp [usetPartition]
  | f :: fs, seen => by
    by_cases hval : planeIsValid (attrFacePlane m f) = true
    · by_cases hseen : attrFacePlane m f ∈ seen
      · rw [usetPartition_seen m f fs seen hval hseen]
        obtain ⟨ih1, ih2, ih3, ih4⟩ := usetPartition_spec m fs seen
        refine ⟨?_, ?_, ih3, ?_⟩
        · intro g hg
          obtain ⟨hmem, hrest⟩ := ih1 g hg
          exact ⟨List.mem_cons_of_mem _ hmem, hrest⟩
        · intro g hg
          obtain ⟨hmem, hrest⟩ := ih2 g hg
          exact ⟨List.mem_cons_of_mem _ hmem, hrest⟩
        · intro g hg hv
          rcases List.mem_cons.mp hg with rfl | hg2
          · exact Or.inl hseen
          · exact ih4 g hg2 hv
      · obtain ⟨ih1, ih2, ih3, ih4⟩ := usetPartition_spec m fs (attrFacePlane m f :: seen)
        by_cases hca : faceIsConcaveAdjacent m f = true
        · rw [usetPartition_new_conc m f fs seen hval hseen hca]
          refine ⟨?_, ?_, ?_, ?_⟩
          · intro g hg
            rcases List.mem_cons.mp hg with rfl | hg2
            · exact ⟨List.mem_cons_self _ _, hval, hca, hseen⟩
            · obtain ⟨hmem, hv, hc, hns⟩ := ih1 g hg2
              exact ⟨List.mem_cons_of_mem _ hmem, hv, hc,
                fun hx => hns (List.mem_cons_of_mem _ hx)⟩
          · intro g hg
            obtain ⟨hmem, hv, hc, hns⟩ := ih2 g hg
            exact ⟨List.mem_cons_of_mem _ hmem, hv, hc,
              fun hx => hns (List.mem_cons_of_mem _ hx)⟩
          · simp only [List.cons_append, List.map_cons, List.nodup_cons]
            refine ⟨?_, ih3⟩
            intro hx
            rcases List.mem_map.mp hx with ⟨g, hg, hpg⟩
            rcases List.mem_append.mp hg with hg1 | hg2
            · exact (ih1 g hg1).2.2.2 (hpg ▸ List.mem_cons_self _ _)
            · exact (ih2 g hg2).2.2.2 (hpg ▸ List.mem_cons_self _ _)
          · intro g hg hv
            rcases List.mem_cons.mp hg with rfl | hg2
            · exact Or.inr (by simp)
            · rcases ih4 g hg2 hv with hin | hin
              · rcases List.mem_cons.mp hin with heq | hin2
                · exact Or.inr (by simp [heq])
                · exact Or.inl hin2
              · refine Or.inr ?_
                simp only [List.cons_append, List.map_cons, List.mem_cons]
                exact Or.inr hin
        · have hca2 : faceIsConcaveAdjacent m f = false := by
            revert hca; cases faceIsConcaveAdjacent m f <;> simp
          rw [usetPartition_new_conv m f fs seen hval hseen hca2]
          refine ⟨?_, ?_, ?_, ?_⟩
          · intro g hg
            obtain ⟨hmem, hv, hc, hns⟩ := ih1 g hg
            exact ⟨List.mem_cons_of_mem _ hmem, hv, hc,
              fun hx => hns (List.mem_cons_of_mem _ hx)⟩
          · intro g hg
            rcases List.mem_cons.mp hg with rfl | hg2
            · exact ⟨List.mem_cons_self _ _, hval, hca2, hseen⟩
            · obtain ⟨hmem, hv, hc, hns⟩ := ih2 g hg2
              exact ⟨List.mem_cons_of_mem _ hmem, hv, hc,
                fun hx => hns (List.mem_cons_of_mem _ hx)⟩
          · have hmid : ((usetPartition m fs (attrFacePlane m f :: seen)).1
                ++ f :: (usetPartition m fs (attrFacePlane m f :: seen)).2).map
                  (attrFacePlane m)
                = ((usetPartition m fs (attrFacePlane m f :: seen)).1).map (attrFacePlane m)
                  ++ attrFacePlane m f ::
                    ((usetPartition m fs (attrFacePlane m f :: seen)).2).map
                      (attrFacePlane m) := by
              simp
            rw [hmid, List.nodup_middle, List.nodup_cons, ← List.map_append]
            refine ⟨?_, ih3⟩
            intro hx
            rcases List.mem_map.mp hx with ⟨g, hg, hpg⟩
            rcases List.mem_append.mp hg with hg1 | hg2
            · exact (ih1 g hg1).2.2.2 (hpg ▸ List.mem_cons_self _ _)
            · exact (ih2 g hg2).2.2.2 (hpg ▸ List.mem_cons_self _ _)
          · intro g hg hv
            rcases List.mem_cons.mp hg with rfl | hg2
            · exact Or.inr (by simp)
            · rcases ih4 g hg2 hv with hin | hin
              · rcases List.mem_cons.mp hin with heq | hin2
                · exact Or.inr (by simp [heq])
                · exact Or.inl hin2
              · refine Or.inr ?_
                rcases List.mem_map.mp hin with ⟨g2, hg2m, hpg2⟩
                refine List.mem_map.mpr ⟨g2, ?_, hpg2⟩
                rcases List.mem_append.mp hg2m with h1 | h1
                · exact List.mem_append.mpr (Or.inl h1)
                · exact List.mem_append.mpr (Or.inr (List.mem_cons_of_mem _ h1))
    · have hval2 : planeIsValid (attrFacePlane m f) = false := by
        revert hval; cases planeIsValid (attrFacePlane m f) <;> simp
      rw [usetPartition_invalid m f fs seen hval2]
      obtain ⟨ih1, ih2, ih3, ih4⟩ := usetPartition_spec m fs seen
      refine ⟨?_, ?_, ih3, ?_⟩
      · intro g hg
        obtain ⟨hmem, hrest⟩ := ih1 g hg
        exact ⟨List.mem_cons_of_mem _ hmem, hrest⟩
      · intro g hg
        obtain ⟨hmem, hrest⟩ := ih2 g hg
        exact ⟨List.mem_cons_of_mem _ hmem, hrest⟩
      · intro g hg hv
        rcases List.mem_cons.mp hg with rfl | hg2
        · exact absurd hv hval
        · exact ih4 g hg2 hv

/-! ## C4: flood-fill mode lemmas -/

theorem visitRep_subset (m : AttrMesh) (r : ℕ) (visited : List ℕ) :
    ∀ r0 ∈ visited, r0 ∈ (visitRep m r visited).2 := by
  intro r0 h0
  unfold visitRep
  split_ifs <;> simp [h0]

theorem visitRep_self (m : AttrMesh) (r : ℕ) (visited : List ℕ) :
    r ∈ (visitRep m r visited).2 := by
  unfold visitRep
  split_ifs with h1 h2 <;> simp [h1]

theorem visitRep_fst_spec (m : AttrMesh) (r : ℕ) (visited : List ℕ) :
    ∀ r0 ∈ (visitRep m r visited).1,
      r0 = r ∧ r0 ∉ visited ∧ planeIsValid (attrFacePlane m r0) = true := by
  intro r0 h0
  unfold visitRep at h0
  split_ifs at h0 with h1 h2
  · simp at h0
  · simp at h0
    subst h0
    exact ⟨rfl, h1, h2⟩
  · simp at h0

theorem visitRep_fst_nodup (m : AttrMesh) (r : ℕ) (visited : List ℕ) :
    (visitRep m r visited).1.Nodup := by
  unfold visitRep
  split_ifs <;> simp

theorem visitRep_emit (m : AttrMesh) (r : ℕ) (visited : List ℕ) :
    ∀ r0 ∈ (visitRep m r visited).2, r0 ∉ visited →
      planeIsValid (attrFacePlane m r0) = true → r0 ∈ (visitRep m r visited).1 := by
  intro r0 h0 hnv hv
  unfold visitRep at h0 ⊢
  split_ifs at h0 ⊢ with h1 h2
  · exact absurd h0 hnv
  · simp at h0
    rcases h0 with rfl | h0
    · simp
    · exact absurd h0 hnv
  · simp at h0
    rcases h0 with rfl | h0
    · exact absurd hv h2
    · exact absurd h0 hnv

theorem visitRep_fst_sub_snd (m : AttrMesh) (r : ℕ) (visited : List ℕ) :
    ∀ r0 ∈ (visitRep m r visited).1, r0 ∈ (visitRep m r visited).2 := by
  intro r0 h0
  obtain ⟨rfl, -, -⟩ := visitRep_fst_spec m r visited r0 h0
  exact visitRep_self m r0 visited

theorem edgeSkipped_false_of_ne (e : AttrEdge) (h : ¬ edgeSkipped e = true) :
    edgeSkipped e = false := by
  revert h
  cases edgeSkipped e <;> simp

theorem floodFillEdgePhase_subset (m : AttrMesh) (find : ℕ → ℕ) :
    ∀ (es : List AttrEdge) (visited : List ℕ),
      ∀ r ∈ visited, r ∈ (floodFillEdgePhase m find es visited).2
  | [], visited => by simp [floodFillEdgePhase]
  | e :: es, visited => by
    intro r hr
    by_cases hsk : edgeSkipped e = true
    · simp only [floodFillEdgePhase, hsk, if_true]
      exact floodFillEdgePhase_subset m find es visited r hr
    · simp only [floodFillEdgePhase, edgeSkipped_false_of_ne e hsk, Bool.false_eq_true, if_false]
      exact floodFillEdgePhase_subset m find es _ r
        (visitRep_subset m _ _ _ (visitRep_subset m _ _ _ hr))

theorem floodFillEdgePhase_fst_spec (m : AttrMesh) (find : ℕ → ℕ) :
    ∀ (es : List AttrEdge) (visited : List ℕ),
      ∀ r ∈ (floodFillEdgePhase m find es visited).1,
        r ∉ visited ∧ planeIsValid (attrFacePlane m r) = true
          ∧ ∃ e ∈ es, edgeSkipped e = false ∧ (r = find e.faceA ∨ r = find e.faceB)
  | [], visited => by simp [floodFillEdgePhase]
  | e :: es, visited => by
    intro r hr
    by_cases hsk : edgeSkipped e = true
    · simp only [floodFillEdgePhase, hsk, if_true] at hr
      obtain ⟨h1, h2, e2, he2, h3⟩ := floodFillEdgePhase_fst_spec m find es visited r hr
      exact ⟨h1, h2, e2, List.mem_cons_of_mem _ he2, h3⟩
    · have hsk2 := edgeSkipped_false_of_ne e hsk
      simp only [floodFillEdgePhase, hsk2, Bool.false_eq_true, if_false] at hr
      rcases List.mem_append.mp hr with hra | hrest
      · obtain ⟨rfl, hnv, hv⟩ := visitRep_fst_spec m _ _ r hra
        exact ⟨hnv, hv, e, List.mem_cons_self _ _, hsk2, Or.inl rfl⟩
      · rcases List.mem_append.mp hrest with hrb | hrr
        · obtain ⟨rfl, hnv, hv⟩ := visitRep_fst_spec m _ _ r hrb
          exact ⟨fun hx => hnv (visitRep_subset m _ _ _ hx), hv, e,
            List.mem_cons_self _ _, hsk2, Or.inr rfl⟩
        · obtain ⟨h1, h2, e2, he2, h3⟩ := floodFillEdgePhase_fst_spec m find es _ r hrr
          refine ⟨?_, h2, e2, List.mem_cons_of_mem _ he2, h3⟩
          intro hx
          exact h1 (visitRep_subset m _ _ r (visitRep_subset m _ _ r hx))

theorem floodFillEdgePhase_fst_sub_snd (m : AttrMesh) (find : ℕ → ℕ) :
    ∀ (es : List AttrEdge) (visited : List ℕ),
      ∀ r ∈ (floodFillEdgePhase m find es visited).1,
        r ∈ (floodFillEdgePhase m find es visited).2
  | [], visited => by simp [floodFillEdgePhase]
  | e :: es, visited => by
    intro r hr
    by_cases hsk : edgeSkipped e = true
    · simp only [floodFillEdgePhase, hsk, if_true] at hr ⊢
      exact floodFillEdgePhase_fst_sub_snd m find es visited r hr
    · have hsk2 := edgeSkipped_false_of_ne e hsk
      simp only [floodFillEdgePhase, hsk2, Bool.false_eq_true, if_false] at hr ⊢
      rcases List.mem_append.mp hr with hra | hrest
      · exact floodFillEdgePhase_subset m find es _ r
          (visitRep_subset m _ _ r (visitRep_fst_sub_snd m _ _ r hra))
      · rcases List.mem_append.mp hrest with hrb | hrr
        · exact floodFillEdgePhase_subset m find es _ r (visitRep_fst_sub_snd m _ _ r hrb)
        · exact floodFillEdgePhase_fst_sub_snd m find es _ r hrr

theorem floodFillEdgePhase_fst_nodup (m : AttrMesh) (find : ℕ → ℕ) :
    ∀ (es : List AttrEdge) (visited : List ℕ),
      (floodFillEdgePhase m find es visited).1.Nodup
  | [], visited => by simp [floodFillEdgePhase]
  | e :: es, visited => by
    by_cases hsk : edgeSkipped e = true
    · simp only [floodFillEdgePhase, hsk, if_true]
      exact floodFillEdgePhase_fst_nodup m find es visited
    · have hsk2 := edgeSkipped_false_of_ne e hsk
      simp only [floodFillEdgePhase, hsk2, Bool.false_eq_true, if_false]
      refine List.Nodup.append (visitRep_fst_nodup m _ _) ?_ ?_
      · refine List.Nodup.append (visitRep_fst_nodup m _ _)
          (floodFillEdgePhase_fst_nodup m find es _) ?_
        intro r hrb hrr
        obtain ⟨hnv, -, -⟩ := floodFillEdgePhase_fst_spec m find es _ r hrr
        exact hnv (visitRep_fst_sub_snd m _ _ r hrb)
      · intro r hra hrest
        have hmem2 : r ∈ (visitRep m (find e.faceA) visited).2 :=
          visitRep_fst_sub_snd m _ _ r hra
        rcases List.mem_append.mp hrest with hrb | hrr
        · obtain ⟨-, hnv, -⟩ := visitRep_fst_spec m _ _ r hrb
          exact hnv hmem2
        · obtain ⟨hnv, -, -⟩ := floodFillEdgePhase_fst_spec m find es _ r hrr
          exact hnv (visitRep_subset m _ _ r hmem2)

theorem floodFillEdgePhase_emit (m : AttrMesh) (find : ℕ → ℕ) :
    ∀ (es : List AttrEdge) (visited : List ℕ),
      ∀ r ∈ (floodFillEdgePhase m find es visited).2, r ∉ visited →
        planeIsValid (attrFacePlane m r) = true →
        r ∈ (floodFillEdgePhase m find es visited).1
  | [], visited => by
    intro r hr hnv hv
    exact absurd hr hnv
  | e :: es, visited => by
    intro r hr hnv hv
    by_cases hsk : edgeSkipped e = true
    · simp only [floodFillEdgePhase, hsk, if_true] at hr ⊢
      exact floodFillEdgePhase_emit m find es visited r hr hnv hv
    · have hsk2 := edgeSkipped_false_of_ne e hsk
      simp only [floodFillEdgePhase, hsk2, Bool.false_eq_true, if_false] at hr ⊢
      by_cases hb : r ∈ (visitRep m (find e.faceB) (visitRep m (find e.faceA) visited).2).2
      · by_cases ha : r ∈ (visitRep m (find e.faceA) visited).2
        · exact List.mem_append.mpr (Or.inl (visitRep_emit m _ _ r ha hnv hv))
        · exact List.mem_append.mpr (Or.inr (List.mem_append.mpr
            (Or.inl (visitRep_emit m _ _ r hb ha hv))))
      · refine List.mem_append.mpr (Or.inr (List.mem_append.mpr (Or.inr ?_)))
        exact floodFillEdgePhase_emit m find es _ r hr hb hv

theorem floodFillEdgePhase_covers (m : AttrMesh) (find : ℕ → ℕ) :
    ∀ (es : List AttrEdge) (visited : List ℕ),
      ∀ e ∈ es, edgeSkipped e = false →
        find e.faceA ∈ (floodFillEdgePhase m find es visited).2
          ∧ find e.faceB ∈ (floodFillEdgePhase m find es visited).2
  | [], visited => by simp
  | e :: es, visited => by
    intro e2 he2 hns
    by_cases hsk : edgeSkipped e = true
    · simp only [floodFillEdgePhase, hsk, if_true]
      rcases List.mem_cons.mp he2 with rfl | he3
      · exact absurd hsk (by simp [hns])
      · exact floodFillEdgePhase_covers m find es visited e2 he3 hns
    · have hsk2 := edgeSkipped_false_of_ne e hsk
      simp only [floodFillEdgePhase, hsk2, Bool.false_eq_true, if_false]
      rcases List.mem_cons.mp he2 with rfl | he3
      · constructor
        · exact floodFillEdgePhase_subset m find es _ _
            (visitRep_subset m _ _ _ (visitRep_self m _ _))
        · exact floodFillEdgePhase_subset m find es _ _ (visitRep_self m _ _)
      · exact floodFillEdgePhase_covers m find es _ e2 he3 hns

theorem floodFillFacePhase_spec (m : AttrMesh) (find : ℕ → ℕ) :
    ∀ (fs : List ℕ) (visited : List ℕ),
      (∀ r ∈ floodFillFacePhase m find fs visited,
        r ∉ visited ∧ planeIsValid (attrFacePlane m r) = true ∧ ∃ f ∈ fs, r = find f)
      ∧ (floodFillFacePhase m find fs visited).Nodup
      ∧ (∀ f ∈ fs, planeIsValid (attrFacePlane m (find f)) = true →
          find f ∈ visited ∨ find f ∈ floodFillFacePhase m find fs visited)
  | [], visited => by simp [floodFillFacePhase]
  | f :: fs, visited => by
    by_cases hin : find f ∈ visited
    · obtain ⟨ih1, ih2, ih3⟩ := floodFillFacePhase_spec m find fs visited
      simp only [floodFillFacePhase, hin, if_true]
      refine ⟨?_, ih2, ?_⟩
      · intro r hr
        obtain ⟨h1, h2, g, hg, h3⟩ := ih1 r hr
        exact ⟨h1, h2, g, List.mem_cons_of_mem _ hg, h3⟩
      · intro g hg hv
        rcases List.mem_cons.mp hg with rfl | hg2
        · exact Or.inl hin
        · exact ih3 g hg2 hv
    · obtain ⟨ih1, ih2, ih3⟩ := floodFillFacePhase_spec m find fs (find f :: visited)
      by_cases hv : planeIsValid (attrFacePlane m (find f)) = true
      · simp only [floodFillFacePhase, hin, if_false, hv, if_true]
        refine ⟨?_, ?_, ?_⟩
        · intro r hr
          rcases List.mem_cons.mp hr with rfl | hr2
          · exact ⟨hin, hv, f, List.mem_cons_self _ _, rfl⟩
          · obtain ⟨h1, h2, g, hg, h3⟩ := ih1 r hr2
            exact ⟨fun hx => h1 (List.mem_cons_of_mem _ hx), h2, g,
              List.mem_cons_of_mem _ hg, h3⟩
        · rw [List.nodup_cons]
          refine ⟨?_, ih2⟩
          intro hx
          exact (ih1 _ hx).1 (List.mem_cons_self _ _)
        · intro g hg hgv
          rcases List.mem_cons.mp hg with rfl | hg2
          · exact Or.inr (List.mem_cons_self _ _)
          · rcases ih3 g hg2 hgv with hin2 | hin2
            · rcases List.mem_cons.mp hin2 with heq | hin3
              · exact Or.inr (heq ▸ List.mem_cons_self _ _)
              · exact Or.inl hin3
            · exact Or.inr (List.mem_cons_of_mem _ hin2)
      · have hv2 : planeIsValid (attrFacePlane m (find f)) = false := by
          revert hv
          cases planeIsValid (attrFacePlane m (find f)) <;> simp
        simp only [floodFillFacePhase, hin, if_false, hv2, Bool.false_eq_true]
        refine ⟨?_, ih2, ?_⟩
        · intro r hr
          obtain ⟨h1, h2, g, hg, h3⟩ := ih1 r hr
          exact ⟨fun hx => h1 (List.mem_cons_of_mem _ hx), h2, g,
            List.mem_cons_of_mem _ hg, h3⟩
        · intro g hg hgv
          rcases List.mem_cons.mp hg with rfl | hg2
          · exact absurd hgv (by simp [hv2])
          · rcases ih3 g hg2 hgv with hin2 | hin2
            · rcases List.mem_cons.mp hin2 with heq | hin3
              · exact absurd (heq ▸ hgv) (by simp [hv2])
              · exact Or.inl hin3
            · exact Or.inr hin2

/-- Counterexample to C4 as stated.  On counterMeshC4 (with the identity
union-find map, correct here since no edge is planar) the flood-fill
cutting-plane list is [P, Q, P] and contains a duplicate plane; and in
hash-set mode the prefix of length num_concave is [Q] although P, a valid
face plane of face 1 which is adjacent to the concave edge, is not in it
(face 0 bears the same plane and is scanned first). -/
theorem cutting_planes_plane_level_counterexample :
    ¬ (initCuttingPlanesFloodFill counterMeshC4 (fun f => f)).cuttingPlanes.Nodup
    ∧ (initCuttingPlanesUset counterMeshC4).cuttingPlanes.take
        (initCuttingPlanesUset counterMeshC4).numConcave = [⟨1, 0, 0, 0⟩]
    ∧ planeIsValid (attrFacePlane counterMeshC4 1) = true
    ∧ faceIsConcaveAdjacent counterMeshC4 1 = true
    ∧ attrFacePlane counterMeshC4 1
        ∉ (initCuttingPlanesUset counterMeshC4).cuttingPlanes.take
            (initCuttingPlanesUset counterMeshC4).numConcave := by
  decide

/-- C4 (amended): for every non-convex attribute input, in hash-set mode
the cutting-plane list is the plane list of the emitted faces, contains no
duplicate planes, its prefix of length num_concave holds the valid planes
of the first-bearer faces adjacent to a non-convex edge and its suffix the
valid planes of the remaining first-bearer faces, and every valid face
plane occurs in the list; in flood-fill mode the emitted representative
faces are pairwise distinct (so each merged coplanar region contributes at
most once, though equal plane tuples of regions not merged by planar edges
may repeat), the prefix holds exactly representatives of faces of
non-convex edges with valid planes, the suffix representatives touching no
non-convex edge, and every representative with a valid plane occurs. -/
theorem cutting_planes_structure (m : AttrMesh) (find : ℕ → ℕ)
    (hnc : ∃ e ∈ m.edges, edgeSkipped e = false) :
    ((initCuttingPlanesUset m).cuttingPlanes
        = (initCuttingPlanesUset m).faceOfPlane.map (attrFacePlane m)
      ∧ (initCuttingPlanesUset m).cuttingPlanes.Nodup
      ∧ (∀ f ∈ (initCuttingPlanesUset m).faceOfPlane.take (initCuttingPlanesUset m).numConcave,
          planeIsValid (attrFacePlane m f) = true ∧ faceIsConcaveAdjacent m f = true)
      ∧ (∀ f ∈ (initCuttingPlanesUset m).faceOfPlane.drop (initCuttingPlanesUset m).numConcave,
          planeIsValid (attrFacePlane m f) = true ∧ faceIsConcaveAdjacent m f = false)
      ∧ (∀ f < m.facePlanes.length, planeIsValid (attrFacePlane m f) = true →
          attrFacePlane m f ∈ (initCuttingPlanesUset m).cuttingPlanes))
    ∧ ((initCuttingPlanesFloodFill m find).cuttingPlanes
        = (initCuttingPlanesFloodFill m find).faceOfPlane.map (attrFacePlane m)
      ∧ (initCuttingPlanesFloodFill m find).faceOfPlane.Nodup
      ∧ (∀ r ∈ (initCuttingPlanesFloodFill m find).faceOfPlane.take
            (initCuttingPlanesFloodFill m find).numConcave,
          planeIsValid (attrFacePlane m r) = true
            ∧ ∃ e ∈ m.edges, edgeSkipped e = false ∧ (r = find e.faceA ∨ r = find e.faceB))
      ∧ (∀ r ∈ (initCuttingPlanesFloodFill m find).faceOfPlane.drop
            (initCuttingPlanesFloodFill m find).numConcave,
          planeIsValid (attrFacePlane m r) = true
            ∧ ∀ e ∈ m.edges, edgeSkipped e = false → r ≠ find e.faceA ∧ r ≠ find e.faceB)
      ∧ (∀ f < m.facePlanes.length, planeIsValid (attrFacePlane m (find f)) = true →
          find f ∈ (initCuttingPlanesFloodFill m find).faceOfPlane)) := by
  obtain ⟨sp1, sp2, sp3, sp4⟩ := usetPartition_spec m (List.range m.facePlanes.length) []
  constructor
  · refine ⟨rfl, sp3, ?_, ?_, ?_⟩
    · intro f hf
      rw [show (initCuttingPlanesUset m).faceOfPlane.take (initCuttingPlanesUset m).numConcave
          = (usetPartition m (List.range m.facePlanes.length) []).1 from List.take_left _ _] at hf
      obtain ⟨-, hv, hc, -⟩ := sp1 f hf
      exact ⟨hv, hc⟩
    · intro f hf
      rw [show (initCuttingPlanesUset m).faceOfPlane.drop (initCuttingPlanesUset m).numConcave
          = (usetPartition m (List.range m.facePlanes.length) []).2 from List.drop_left _ _] at hf
      obtain ⟨-, hv, hc, -⟩ := sp2 f hf
      exact ⟨hv, hc⟩
    · intro f hf hv
      rcases sp4 f (List.mem_range.mpr hf) hv with hin | hin
      · exact absurd hin (List.not_mem_nil _)
      · exact hin
  · refine ⟨rfl, ?_, ?_, ?_, ?_⟩
    · refine List.Nodup.append (floodFillEdgePhase_fst_nodup m find m.edges [])
        ((floodFillFacePhase_spec m find (List.range m.facePlanes.length)
          (floodFillEdgePhase m find m.edges []).2).2.1) ?_
      intro r hr1 hr2
      have h1 := floodFillEdgePhase_fst_sub_snd m find m.edges [] r hr1
      have h2 := ((floodFillFacePhase_spec m find (List.range m.facePlanes.length)
        (floodFillEdgePhase m find m.edges []).2).1 r hr2).1
      exact h2 h1
    · intro r hr
      rw [show (initCuttingPlanesFloodFill m find).faceOfPlane.take
            (initCuttingPlanesFloodFill m find).numConcave
          = (floodFillEdgePhase m find m.edges []).1 from List.take_left _ _] at hr
      obtain ⟨-, hv, hedge⟩ := floodFillEdgePhase_fst_spec m find m.edges [] r hr
      exact ⟨hv, hedge⟩
    · intro r hr
      rw [show (initCuttingPlanesFloodFill m find).faceOfPlane.drop
            (initCuttingPlanesFloodFill m find).numConcave
          = floodFillFacePhase m find (List.range m.facePlanes.length)
              (floodFillEdgePhase m find m.edges []).2 from List.drop_left _ _] at hr
      obtain ⟨hnv, hv, -⟩ := (floodFillFacePhase_spec m find (List.range m.facePlanes.length)
        (floodFillEdgePhase m find m.edges []).2).1 r hr
      refine ⟨hv, ?_⟩
      intro e he hns
      obtain ⟨hA, hB⟩ := floodFillEdgePhase_covers m find m.edges [] e he hns
      constructor
      · intro heq
        exact hnv (heq ▸ hA)
      · intro heq
        exact hnv (heq ▸ hB)
    · intro f hf hv
      rcases (floodFillFacePhase_spec m find (List.range m.facePlanes.length)
        (floodFillEdgePhase m find m.edges []).2).2.2 f (List.mem_range.mpr hf) hv with hin | hin
      · exact List.mem_append.mpr (Or.inl
          (floodFillEdgePhase_emit m find m.edges [] (find f) hin (List.not_mem_nil _) hv))
      · exact List.mem_append.mpr (Or.inr hin)

/-- Witness for the amended C4 on the counterexample input with the
identity representative map. -/
theorem cutting_planes_structure_witness :
    ((initCuttingPlanesUset counterMeshC4).cuttingPlanes
        = (initCuttingPlanesUset counterMeshC4).faceOfPlane.map (attrFacePlane counterMeshC4)
      ∧ (initCuttingPlanesUset counterMeshC4).cuttingPlanes.Nodup
      ∧ (∀ f ∈ (initCuttingPlanesUset counterMeshC4).faceOfPlane.take
            (initCuttingPlanesUset counterMeshC4).numConcave,
          planeIsValid (attrFacePlane counterMeshC4 f) = true
            ∧ faceIsConcaveAdjacent counterMeshC4 f = true)
      ∧ (∀ f ∈ (initCuttingPlanesUset counterMeshC4).faceOfPlane.drop
            (initCuttingPlanesUset counterMeshC4).numConcave,
          planeIsValid (attrFacePlane counterMeshC4 f) = true
            ∧ faceIsConcaveAdjacent counterMeshC4 f = false)
      ∧ (∀ f < counterMeshC4.facePlanes.length,
          planeIsValid (attrFacePlane counterMeshC4 f) = true →
          attrFacePlane counterMeshC4 f ∈ (initCuttingPlanesUset counterMeshC4).cuttingPlanes))
    ∧ ((initCuttingPlanesFloodFill counterMeshC4 (fun f => f)).cuttingPlanes
        = (initCuttingPlanesFloodFill counterMeshC4 (fun f => f)).faceOfPlane.map
            (attrFacePlane counterMeshC4)
      ∧ (initCuttingPlanesFloodFill counterMeshC4 (fun f => f)).faceOfPlane.Nodup
      ∧ (∀ r ∈ (initCuttingPlanesFloodFill counterMeshC4 (fun f => f)).faceOfPlane.take
            (initCuttingPlanesFloodFill counterMeshC4 (fun f => f)).numConcave,
          planeIsValid (attrFacePlane counterMeshC4 r) = true
            ∧ ∃ e ∈ counterMeshC4.edges, edgeSkipped e = false
                ∧ (r = (fun f => f) e.faceA ∨ r = (fun f => f) e.faceB))
      ∧ (∀ r ∈ (initCuttingPlanesFloodFill counterMeshC4 (fun f => f)).faceOfPlane.drop
            (initCuttingPlanesFloodFill counterMeshC4 (fun f => f)).numConcave,
          planeIsValid (attrFacePlane counterMeshC4 r) = true
            ∧ ∀ e ∈ counterMeshC4.edges, edgeSkipped e = false →
                r ≠ (fun f => f) e.faceA ∧ r ≠ (fun f => f) e.faceB)
      ∧ (∀ f < counterMeshC4.facePlanes.length,
          planeIsValid (attrFacePlane counterMeshC4 ((fun f => f) f)) = true →
          (fun f => f) f
            ∈ (initCuttingPlanesFloodFill counterMeshC4 (fun f => f)).faceOfPlane)) :=
  cutting_planes_structure counterMeshC4 (fun f => f)
    ⟨⟨1, 2, EdgeState.concave⟩, by decide, by decide⟩

/-! ## C5 -/

theorem solve1D_state (planes : List Plane) (f3 f2 : ℕ) (sol : SeidelSolution) :
    (solve1D planes f3 f2 sol).1 = SolverState.infeasible
      ∨ (solve1D planes f3 f2 sol).1 = SolverState.has_solution := by
  unfold solve1D
  dsimp only
  split
  · simp
  · split <;> simp

theorem solve2DLoop_state (planes : List Plane) (stop : Bool) (f3 : ℕ) (fixedPlane : Plane) :
    ∀ (ips : List (ℕ × Plane)) (sol : SeidelSolution),
      (solve2DLoop planes stop f3 fixedPlane ips sol).1 = SolverState.infeasible
        ∨ (solve2DLoop planes stop f3 fixedPlane ips sol).1 = SolverState.has_solution
  | [], sol => by simp [solve2DLoop]
  | ip :: rest, sol => by
    unfold solve2DLoop
    split
    · simp
    · split
      · exact solve2DLoop_state planes stop f3 fixedPlane rest _
      · split
        · simp
        · split
          · simp
          · exact solve2DLoop_state planes stop f3 fixedPlane rest _

theorem solve2D_state (planes : List Plane) (stop : Bool) (f3 : ℕ) (sol : SeidelSolution) :
    (solve2D planes stop f3 sol).1 = SolverState.infeasible
      ∨ (solve2D planes stop f3 sol).1 = SolverState.has_solution :=
  solve2DLoop_state planes stop f3 _ _ _

theorem solve3DLoop_state (planes : List Plane) (stop : Bool) :
    ∀ (ips : List (ℕ × Plane)) (sol : SeidelSolution),
      (solve3DLoop planes stop ips sol).1 = SolverState.infeasible
        ∨ (solve3DLoop planes stop ips sol).1 = SolverState.has_solution
  | [], sol => by simp [solve3DLoop]
  | ip :: rest, sol => by
    unfold solve3DLoop
    split
    · simp
    · split
      · exact solve3DLoop_state planes stop rest _
      · split
        · simp
        · exact solve3DLoop_state planes stop rest _

/-- Counterexample to C5 as stated: with the stop flag set and an empty
plane set, solve() returns has_solution, not infeasible (the flag is only
read at the top of a plane iteration, and there is none). -/
theorem seidel_stop_empty_counterexample :
    solveSeidel [] true = SolverState.has_solution
    ∧ solveSeidel [] true ≠ SolverState.infeasible := by
  decide

/-- C5 (amended): for every plane set the solver returns only
has_solution or infeasible, never unbounded or ambiguous; and whenever the
stop flag is set and the plane list is nonempty, it returns infeasible at
the first 3D iteration (the flag is read at the top of every 3D plane
iteration and every 1000 planes in the 2D sub-solver; on an empty plane
list no check happens and the solver returns has_solution). -/
theorem seidel_solver_states (planes : List Plane) (stop : Bool) :
    (solveSeidel planes stop = SolverState.infeasible
      ∨ solveSeidel planes stop = SolverState.has_solution)
    ∧ (planes ≠ [] → solveSeidel planes true = SolverState.infeasible) := by
  constructor
  · exact solve3DLoop_state planes stop _ _
  · intro hne
    rcases planes with _ | ⟨p, rest⟩
    · exact absurd rfl hne
    · simp [solveSeidel, solve3DLoop]

/-- Witness for C5 on a one-plane set. -/
theorem seidel_solver_states_witness :
    (solveSeidel [⟨1, 0, 0, -1⟩] true = SolverState.infeasible
      ∨ solveSeidel [⟨1, 0, 0, -1⟩] true = SolverState.has_solution)
    ∧ ([(⟨1, 0, 0, -1⟩ : Plane)] ≠ [] →
        solveSeidel [⟨1, 0, 0, -1⟩] true = SolverState.infeasible) :=
  seidel_solver_states [⟨1, 0, 0, -1⟩] true

/-! ## C6 -/

theorem classify4_cases (pt : Point4) (pl : Plane) :
    classify4 pt pl = -1 ∨ classify4 pt pl = 0 ∨ classify4 pt pl = 1 := by
  unfold classify4
  rcases isign_cases (planeEval pl pt) with h1 | h1 | h1 <;>
    rcases isign_cases pt.w with h2 | h2 | h2 <;> simp [h1, h2]

theorem isClosed_false_of_isOneSided {itv : Interval1D} (h : itv.isOneSided = true) :
    itv.isClosed = false := by
  simp only [Interval1D.isOneSided, decide_eq_true_eq] at h
  simp only [Interval1D.isClosed, decide_eq_false_iff_not]
  omega

theorem isClosed_false_of_isLine {itv : Interval1D} (h : itv.isLine = true) :
    itv.isClosed = false := by
  simp only [Interval1D.isLine, decide_eq_true_eq] at h
  simp only [Interval1D.isClosed, decide_eq_false_iff_not]
  omega

theorem isOneSided_false_of_isLine {itv : Interval1D} (h : itv.isLine = true) :
    itv.isOneSided = false := by
  simp only [Interval1D.isLine, decide_eq_true_eq] at h
  simp only [Interval1D.isOneSided, decide_eq_false_iff_not]
  omega

/-- Counterexample to C6 as stated: on the x-axis line with a one-sided
left bound at x = 1 (orientation +1), the plane x >= 2 has crossing
orientation -1, yet the 1D step does not close the interval: the bound
point violates the new plane, so the step reports infeasible. -/
theorem solve_1d_crossing_counterexample :
    Interval1D.isOneSided { leftIdx := 0, leftOrient := 1, leftPoint := ⟨1, 0, 0, 1⟩ } = true
    ∧ orientLP (intersectPP ⟨0, 1, 0, 0⟩ ⟨0, 0, 1, 0⟩) ⟨-1, 0, 0, 2⟩ ≠ 0
    ∧ orientLP (intersectPP ⟨0, 1, 0, 0⟩ ⟨0, 0, 1, 0⟩) ⟨-1, 0, 0, 2⟩
        ≠ ({ leftIdx := 0, leftOrient := 1, leftPoint := ⟨1, 0, 0, 1⟩ } : Interval1D).leftOrient
    ∧ step1D (intersectPP ⟨0, 1, 0, 0⟩ ⟨0, 0, 1, 0⟩)
        { leftIdx := 0, leftOrient := 1, leftPoint := ⟨1, 0, 0, 1⟩ } 1 ⟨-1, 0, 0, 2⟩ = none := by
  decide

/-- C6 (amended): one iteration of the 1D sub-solver behaves as follows.
On a one-sided interval, a plane of crossing orientation closes the
interval when the current bound point satisfies it (classifies at most 0),
and reports infeasible when the bound point classifies +1; a plane of the
same orientation replaces the bound exactly when it is strictly tighter
(the old bound point classifies +1 against it) and leaves the interval
unchanged otherwise; a plane parallel to the line with a violated bound
point reports infeasible (likewise, on an unbounded interval, a parallel
plane with a violated line witness).  On a closed interval, a plane that
both endpoints classify +1 against reports infeasible. -/
theorem solve_1d_interval_step (ln : Line) (itv : Interval1D) (i : ℕ) (pl : Plane) :
    (itv.isOneSided = true → orientLP ln pl ≠ 0 → orientLP ln pl ≠ itv.leftOrient →
      classify4 itv.leftPoint pl ≤ 0 →
      step1D ln itv i pl
        = some { itv with
                 rightIdx := i, rightOrient := orientLP ln pl,
                 rightPoint := intersectLP ln pl })
    ∧ (itv.isOneSided = true → orientLP ln pl ≠ 0 → orientLP ln pl ≠ itv.leftOrient →
      classify4 itv.leftPoint pl = 1 → step1D ln itv i pl = none)
    ∧ (itv.isOneSided = true → orientLP ln pl = itv.leftOrient → itv.leftOrient ≠ 0 →
      classify4 itv.leftPoint pl = 1 →
      step1D ln itv i pl
        = some { itv with
                 leftIdx := i, leftOrient := orientLP ln pl,
                 leftPoint := intersectLP ln pl })
    ∧ (itv.isOneSided = true → orientLP ln pl = itv.leftOrient → itv.leftOrient ≠ 0 →
      classify4 itv.leftPoint pl ≤ 0 → step1D ln itv i pl = some itv)
    ∧ (itv.isOneSided = true → orientLP ln pl = 0 → 0 < classify4 itv.leftPoint pl →
      step1D ln itv i pl = none)
    ∧ (itv.isLine = true → orientLP ln pl = 0 → classify4 (anyPointLine ln) pl = 1 →
      step1D ln itv i pl = none)
    ∧ (itv.isClosed = true → classify4 itv.leftPoint pl = 1 →
      classify4 itv.rightPoint pl = 1 → step1D ln itv i pl = none) := by
  refine ⟨?_, ?_, ?_, ?_, ?_, ?_, ?_⟩
  · intro h1 ho hno hc
    have hcl := isClosed_false_of_isOneSided h1
    have hc1 : ¬ classify4 itv.leftPoint pl = 1 := by omega
    simp [step1D, hcl, h1, ho, hc1, hno]
  · intro h1 ho hno hc
    have hcl := isClosed_false_of_isOneSided h1
    simp [step1D, hcl, h1, ho, hc, hno]
  · intro h1 ho hlo hc
    have hcl := isClosed_false_of_isOneSided h1
    simp [step1D, hcl, h1, hc, ho, hlo]
  · intro h1 ho hlo hc
    have hcl := isClosed_false_of_isOneSided h1
    have hc1 : ¬ classify4 itv.leftPoint pl = 1 := by omega
    simp [step1D, hcl, h1, hc1, ho, hlo]
  · intro h1 ho hc
    have hcl := isClosed_false_of_isOneSided h1
    have hc0 : ¬ classify4 itv.leftPoint pl ≤ 0 := by omega
    simp [step1D, hcl, h1, ho, hc0]
  · intro h1 ho hc
    have hcl := isClosed_false_of_isLine h1
    have hos := isOneSided_false_of_isLine h1
    simp [step1D, hcl, hos, ho, hc]
  · intro h1 hcl hcr
    simp [step1D, h1, hcl, hcr]

/-- Witness for C6: on the x-axis with a one-sided left bound at x = 1,
the crossing plane x >= 0 is satisfied by the bound point and closes the
interval. -/
theorem solve_1d_interval_step_witness :
    step1D (intersectPP ⟨0, 1, 0, 0⟩ ⟨0, 0, 1, 0⟩)
        { leftIdx := 0, leftOrient := 1, leftPoint := ⟨1, 0, 0, 1⟩ } 1 ⟨-1, 0, 0, 0⟩
      = some { leftIdx := 0, leftOrient := 1, leftPoint := ⟨1, 0, 0, 1⟩, rightIdx := 1,
               rightOrient := orientLP (intersectPP ⟨0, 1, 0, 0⟩ ⟨0, 0, 1, 0⟩) ⟨-1, 0, 0, 0⟩,
               rightPoint := intersectLP (intersectPP ⟨0, 1, 0, 0⟩ ⟨0, 0, 1, 0⟩) ⟨-1, 0, 0, 0⟩ } :=
  (solve_1d_interval_step (intersectPP ⟨0, 1, 0, 0⟩ ⟨0, 0, 1, 0⟩)
      { leftIdx := 0, leftOrient := 1, leftPoint := ⟨1, 0, 0, 1⟩ } 1 ⟨-1, 0, 0, 0⟩).1
    (by decide) (by decide) (by decide) (by decide)

end MeshKernel
